import Mathlib

/-!
Verification of the dual-headed residual network in `models.py`
(HP-Protein-Folding).  The network layers are shallowly embedded as
real-valued tensor transformers: machine floats are idealised as `ℝ`,
tensors are shape records with total indexing functions, and every
framework-raised failure (shape mismatch, dtype mismatch, calling `None`)
is an explicit `Except` error.  Shape bookkeeping is done in `ℕ` exactly
as the underlying convolution arithmetic dictates.
-/

namespace Models

/-- Errors raised by the tensor framework during a forward pass. -/
inductive TErr where
  | shapeError : TErr
  | dtypeError : TErr
  | noneCallError : TErr
deriving DecidableEq

/-- `true` exactly on successful results. -/
def exOk {ε α : Type} : Except ε α → Bool
  | .ok _ => true
  | .error _ => false

/-- A 4-D tensor (batch, channel, height, width).  The data function is
total; entries outside the declared shape are junk that no operation
depends on. -/
structure T4 where
  n : ℕ
  c : ℕ
  h : ℕ
  w : ℕ
  data : ℕ → ℕ → ℕ → ℕ → ℝ

/-- A 2-D tensor (batch, features). -/
structure T2 where
  n : ℕ
  m : ℕ
  data : ℕ → ℕ → ℝ

/-- Output length of a 1-D convolution: `(H + 2*pad - k) / stride + 1`,
the size formula the framework uses for `Conv2d`. -/
def convOutDim (H k stride pad : ℕ) : ℕ :=
  (H + 2 * pad - k) / stride + 1

/-- Read an input pixel for convolution, with zero padding outside the
spatial bounds. -/
def padRead (x : T4) (b c : ℕ) (i j : Int) : ℝ :=
  if 0 ≤ i ∧ i < (x.h : Int) ∧ 0 ≤ j ∧ j < (x.w : Int) then
    x.data b c i.toNat j.toNat
  else 0

/-- Parameters of `nn.Conv2d`. -/
structure Conv2dP where
  cin : ℕ
  cout : ℕ
  kh : ℕ
  kw : ℕ
  stride : ℕ
  pad_h : ℕ
  pad_w : ℕ
  weight : ℕ → ℕ → ℕ → ℕ → ℝ
  bias : ℕ → ℝ
  has_bias : Bool

/-- Apply a 2-D convolution.  Fails with a shape error when the channel
count of the input disagrees with the layer, or the padded input is
smaller than the kernel. -/
def conv2dApply (p : Conv2dP) (x : T4) : Except TErr T4 :=
  if x.c = p.cin ∧ p.kh ≤ x.h + 2 * p.pad_h ∧ p.kw ≤ x.w + 2 * p.pad_w then
    .ok { n := x.n, c := p.cout,
          h := convOutDim x.h p.kh p.stride p.pad_h,
          w := convOutDim x.w p.kw p.stride p.pad_w,
          data := fun b co i j =>
            (if p.has_bias then p.bias co else 0) +
            ∑ ci ∈ Finset.range p.cin, ∑ ki ∈ Finset.range p.kh,
              ∑ kj ∈ Finset.range p.kw,
                p.weight co ci ki kj *
                  padRead x b ci
                    ((i : Int) * (p.stride : Int) + (ki : Int) - (p.pad_h : Int))
                    ((j : Int) * (p.stride : Int) + (kj : Int) - (p.pad_w : Int)) }
  else .error .shapeError

/-- Parameters of `nn.BatchNorm2d` (affine weights plus running
statistics, with the framework defaults `eps`, `momentum`). -/
structure BatchNorm2dP where
  num_features : ℕ
  gamma : ℕ → ℝ
  beta : ℕ → ℝ
  running_mean : ℕ → ℝ
  running_var : ℕ → ℝ
  eps : ℝ
  momentum : ℝ

/-- Apply batch normalization.  In training mode the batch statistics are
used and the running statistics are updated (a parameter mutation); in
evaluation mode the stored running statistics are used and the parameters
are returned unchanged. -/
noncomputable def bnApply (training : Bool) (p : BatchNorm2dP) (x : T4) :
    Except TErr (T4 × BatchNorm2dP) :=
  if x.c = p.num_features then
    if training then
      let cnt : ℕ := x.n * x.h * x.w
      let mean : ℕ → ℝ := fun c =>
        (∑ b ∈ Finset.range x.n, ∑ i ∈ Finset.range x.h,
          ∑ j ∈ Finset.range x.w, x.data b c i j) / (cnt : ℝ)
      let var : ℕ → ℝ := fun c =>
        (∑ b ∈ Finset.range x.n, ∑ i ∈ Finset.range x.h,
          ∑ j ∈ Finset.range x.w, (x.data b c i j - mean c) ^ 2) / (cnt : ℝ)
      .ok ({ x with data := fun b c i j =>
              p.gamma c * (x.data b c i j - mean c) / Real.sqrt (var c + p.eps) + p.beta c },
           { p with
              running_mean := fun c =>
                (1 - p.momentum) * p.running_mean c + p.momentum * mean c,
              running_var := fun c =>
                (1 - p.momentum) * p.running_var c +
                  p.momentum * (var c * (cnt : ℝ) / ((cnt : ℝ) - 1)) })
    else
      .ok ({ x with data := fun b c i j =>
              p.gamma c * (x.data b c i j - p.running_mean c) /
                Real.sqrt (p.running_var c + p.eps) + p.beta c }, p)
  else .error .shapeError

/-- Pointwise rectified-linear activation on a 4-D tensor. -/
def relu4 (x : T4) : T4 :=
  { x with data := fun b c i j => max (x.data b c i j) 0 }

/-- Pointwise rectified-linear activation on a 2-D tensor. -/
def relu2 (x : T2) : T2 :=
  { x with data := fun b k => max (x.data b k) 0 }

/-- Parameters of `nn.Linear`. -/
structure LinearP where
  in_features : ℕ
  out_features : ℕ
  weight : ℕ → ℕ → ℝ
  bias : ℕ → ℝ

/-- Apply a fully-connected layer; fails when the feature dimension of
the input disagrees with the layer. -/
def linearApply (p : LinearP) (x : T2) : Except TErr T2 :=
  if x.m = p.in_features then
    .ok { n := x.n, m := p.out_features,
          data := fun b o =>
            p.bias o + ∑ k ∈ Finset.range p.in_features, p.weight o k * x.data b k }
  else .error .shapeError

/-- `x.view(x.size(0), -1)`: flatten channel and spatial dimensions. -/
def flattenT4 (x : T4) : T2 :=
  { n := x.n, m := x.c * x.h * x.w,
    data := fun b k => x.data b (k / (x.h * x.w)) (k % (x.h * x.w) / x.w) (k % x.w) }

/-- `nn.LogSoftmax(dim=1)` on a 2-D tensor. -/
noncomputable def logSoftmaxT2 (x : T2) : T2 :=
  { x with data := fun b o =>
      x.data b o - Real.log (∑ k ∈ Finset.range x.m, Real.exp (x.data b k)) }

/-- Pointwise exponential on a 2-D tensor (`Tensor.exp`). -/
noncomputable def expT2 (x : T2) : T2 :=
  { x with data := fun b o => Real.exp (x.data b o) }

/-- Pointwise hyperbolic tangent on a 2-D tensor (`torch.tanh`). -/
noncomputable def tanhT2 (x : T2) : T2 :=
  { x with data := fun b o => Real.tanh (x.data b o) }

/-! ### Module constructors

Weight bundles stand for whatever learned parameter state a layer holds;
the constructors below mirror the `__init__` methods of `models.py`,
fixing every architectural constant exactly as the source does. -/

/-- Learned parameters of a convolution layer. -/
structure ConvW where
  weight : ℕ → ℕ → ℕ → ℕ → ℝ
  bias : ℕ → ℝ

/-- Learned parameters and running statistics of a batch-norm layer. -/
structure BNW where
  gamma : ℕ → ℝ
  beta : ℕ → ℝ
  running_mean : ℕ → ℝ
  running_var : ℕ → ℝ

/-- Learned parameters of a fully-connected layer. -/
structure LinW where
  weight : ℕ → ℕ → ℝ
  bias : ℕ → ℝ

/-- `nn.BatchNorm2d(nf)` with the framework defaults
`eps = 1e-5`, `momentum = 0.1`. -/
noncomputable def bnDefault (nf : ℕ) (w : BNW) : BatchNorm2dP :=
  { num_features := nf, gamma := w.gamma, beta := w.beta,
    running_mean := w.running_mean, running_var := w.running_var,
    eps := 1 / 100000, momentum := 1 / 10 }

/-- `Conv2dAuto.__init__`: an ordinary `nn.Conv2d` whose padding is then
overwritten with `(kernel_size[0] // 2, kernel_size[1] // 2)`. -/
def mkConv2dAuto (cin cout kh kw stride : ℕ) (has_bias : Bool) (w : ConvW) : Conv2dP :=
  { cin := cin, cout := cout, kh := kh, kw := kw, stride := stride,
    pad_h := kh / 2, pad_w := kw / 2,
    weight := w.weight, bias := w.bias, has_bias := has_bias }

/-- `conv3x3 = partial(Conv2dAuto, kernel_size=3, bias=False)`. -/
def conv3x3 (cin cout stride : ℕ) (w : ConvW) : Conv2dP :=
  mkConv2dAuto cin cout 3 3 stride false w

/-- `ResNetBasicBlock.expansion = 1` (class attribute). -/
def basicExpansion : ℕ := 1

/-- A `ResNetBasicBlock`: the two `conv_bn` stages of its `blocks`
sequential, plus the optional projection shortcut inherited from
`ResNetResidualBlock`. -/
structure BasicBlockP where
  in_channels : ℕ
  out_channels : ℕ
  expansion : ℕ
  downsampling : ℕ
  conv1 : Conv2dP
  bn1 : BatchNorm2dP
  conv2 : Conv2dP
  bn2 : BatchNorm2dP
  shortcut : Option (Conv2dP × BatchNorm2dP)

/-- `ResNetResidualBlock.should_apply_shortcut`:
`in_channels != out_channels * expansion`. -/
def shouldApplyShortcut (b : BasicBlockP) : Prop :=
  b.in_channels ≠ b.out_channels * b.expansion

instance (b : BasicBlockP) : Decidable (shouldApplyShortcut b) := by
  unfold shouldApplyShortcut; infer_instance

/-- Learned parameters of one basic block (two conv-bn pairs plus the
shortcut conv-bn pair, present whether or not the shortcut is built). -/
structure BlockW where
  c1 : ConvW
  b1 : BNW
  c2 : ConvW
  b2 : BNW
  sc : ConvW
  sb : BNW

/-- `ResNetResidualBlock.__init__`'s shortcut: a 1x1 convolution
`in_channels → out_channels*expansion` with `stride = downsampling` and
no bias, followed by `BatchNorm2d`, when `should_apply_shortcut`;
otherwise `None`. -/
noncomputable def mkShortcut (in_channels out_channels expansion downsampling : ℕ)
    (scw : ConvW) (sbw : BNW) : Option (Conv2dP × BatchNorm2dP) :=
  if in_channels ≠ out_channels * expansion then
    some ({ cin := in_channels, cout := out_channels * expansion,
            kh := 1, kw := 1, stride := downsampling, pad_h := 0, pad_w := 0,
            weight := scw.weight, bias := scw.bias, has_bias := false },
          bnDefault (out_channels * expansion) sbw)
  else none

/-- `ResNetBasicBlock.__init__` (with `ResNetResidualBlock.__init__`
supplying the shortcut): `conv_bn(in, out, conv3x3, stride=downsampling)`,
activation, `conv_bn(out, out*expansion, conv3x3)`. -/
noncomputable def mkBasicBlock (in_channels out_channels expansion downsampling : ℕ)
    (w : BlockW) : BasicBlockP :=
  { in_channels := in_channels, out_channels := out_channels,
    expansion := expansion, downsampling := downsampling,
    conv1 := conv3x3 in_channels out_channels downsampling w.c1,
    bn1 := bnDefault out_channels w.b1,
    conv2 := conv3x3 out_channels (out_channels * expansion) 1 w.c2,
    bn2 := bnDefault (out_channels * expansion) w.b2,
    shortcut := mkShortcut in_channels out_channels expansion downsampling w.sc w.sb }

/-- `ResidualBlock.forward` for a basic block: take the residual (through
the shortcut when `should_apply_shortcut`, calling `None` would raise),
run the main `blocks` sequential, and add.  Batch-norm parameter updates
are threaded through. -/
noncomputable def blockForward (training : Bool) (blk : BasicBlockP) (x : T4) :
    Except TErr (T4 × BasicBlockP) := do
  let (residual, sc') ←
    if shouldApplyShortcut blk then
      match blk.shortcut with
      | some (cp, bp) => do
          let r ← conv2dApply cp x
          let (r, bp') ← bnApply training bp r
          Except.ok (r, some (cp, bp'))
      | none => Except.error TErr.noneCallError
    else Except.ok (x, blk.shortcut)
  let y ← conv2dApply blk.conv1 x
  let (y, bn1') ← bnApply training blk.bn1 y
  let y := relu4 y
  let y ← conv2dApply blk.conv2 y
  let (y, bn2') ← bnApply training blk.bn2 y
  if y.n = residual.n ∧ y.c = residual.c ∧ y.h = residual.h ∧ y.w = residual.w then
    Except.ok ({ y with data := fun b c i j => y.data b c i j + residual.data b c i j },
               { blk with bn1 := bn1', bn2 := bn2', shortcut := sc' })
  else Except.error TErr.shapeError

/-- A `ResNetLayer`: a sequential list of basic blocks. -/
structure LayerP where
  blocks : List BasicBlockP

/-- `ResNetLayer.__init__`: `downsampling = 2 if in_channels !=
out_channels else 1`; the first block gets the transition and the
downsampling, the remaining `n - 1` blocks run at
`out_channels*expansion → out_channels` with `downsampling=1`. -/
noncomputable def mkResNetLayer (in_channels out_channels n : ℕ) (W : ℕ → BlockW) : LayerP :=
  let downsampling := if in_channels ≠ out_channels then 2 else 1
  { blocks :=
      mkBasicBlock in_channels out_channels basicExpansion downsampling (W 0) ::
      (List.range (n - 1)).map (fun i =>
        mkBasicBlock (out_channels * basicExpansion) out_channels basicExpansion 1 (W (i + 1))) }

/-- Sequential application of a list of blocks, threading parameter
state. -/
noncomputable def blocksForward (training : Bool) :
    List BasicBlockP → T4 → Except TErr (T4 × List BasicBlockP)
  | [], x => Except.ok (x, [])
  | b :: bs, x => do
      let (y, b') ← blockForward training b x
      let (z, bs') ← blocksForward training bs y
      Except.ok (z, b' :: bs')

/-- `ResNetLayer.forward`. -/
noncomputable def layerForward (training : Bool) (L : LayerP) (x : T4) :
    Except TErr (T4 × LayerP) := do
  let (y, bs') ← blocksForward training L.blocks x
  Except.ok (y, { blocks := bs' })

/-- The `ResNetEncoder` module tree: the gate (conv, bn, activation) and
the `ModuleList` of residual layers.  The stored plain-list attributes
(`self.blocks_sizes`, `self.in_out_block_sizes`) are not modules and take
no part in the forward computation, so they are not part of the network
model. -/
structure EncoderP where
  gate_conv : Conv2dP
  gate_bn : BatchNorm2dP
  blocks : List LayerP

/-- Learned parameters of the encoder: gate conv, gate bn, and one block
weight bundle per block index of the single layer. -/
structure EncW where
  gc : ConvW
  gb : BNW
  layerW : ℕ → BlockW

/-- `ResNetEncoder.__init__`: the gate is
`Conv2d(in_channels, blocks_sizes[0], kernel_size=3, stride=1, padding=1,
bias=False)` + `BatchNorm2d` + activation, and the `ModuleList` holds
exactly one `ResNetLayer(blocks_sizes[0], blocks_sizes[0],
n=deepths[0])`, whatever the length of either list.  Indexing an empty
list (`blocks_sizes[0]`) raises, modelled by `none`. -/
noncomputable def mkResNetEncoder (in_channels : ℕ) (blocks_sizes deepths : List ℕ)
    (w : EncW) : Option EncoderP :=
  match blocks_sizes, deepths with
  | b0 :: _, d0 :: _ =>
      some { gate_conv :=
               { cin := in_channels, cout := b0, kh := 3, kw := 3, stride := 1,
                 pad_h := 1, pad_w := 1,
                 weight := w.gc.weight, bias := w.gc.bias, has_bias := false },
             gate_bn := bnDefault b0 w.gb,
             blocks := [mkResNetLayer b0 b0 d0 w.layerW] }
  | _, _ => none

/-- Sequential application of the encoder layers. -/
noncomputable def layersForward (training : Bool) :
    List LayerP → T4 → Except TErr (T4 × List LayerP)
  | [], x => Except.ok (x, [])
  | L :: Ls, x => do
      let (y, L') ← layerForward training L x
      let (z, Ls') ← layersForward training Ls y
      Except.ok (z, L' :: Ls')

/-- `ResNetEncoder.forward`: gate then the layer list. -/
noncomputable def encoderForward (training : Bool) (e : EncoderP) (x : T4) :
    Except TErr (T4 × EncoderP) := do
  let y ← conv2dApply e.gate_conv x
  let (y, gb') ← bnApply training e.gate_bn y
  let y := relu4 y
  let (z, Ls') ← layersForward training e.blocks y
  Except.ok (z, { e with gate_bn := gb', blocks := Ls' })

/-- The `PolicyNet` module. -/
structure PolicyNetP where
  inplanes : ℕ
  outplanes : ℕ
  conv : Conv2dP
  bn : BatchNorm2dP
  fc : LinearP

/-- `PolicyNet.__init__`: `Conv2d(inplanes, 1, kernel_size=1)` (default
stride 1, padding 0, bias), `BatchNorm2d(1)`, `Linear(121, outplanes)`. -/
noncomputable def mkPolicyNet (inplanes outplanes : ℕ) (cw : ConvW) (bw : BNW)
    (fw : LinW) : PolicyNetP :=
  { inplanes := inplanes, outplanes := outplanes,
    conv := { cin := inplanes, cout := 1, kh := 1, kw := 1, stride := 1,
              pad_h := 0, pad_w := 0,
              weight := cw.weight, bias := cw.bias, has_bias := true },
    bn := bnDefault 1 bw,
    fc := { in_features := 121, out_features := outplanes,
            weight := fw.weight, bias := fw.bias } }

/-- `PolicyNet.forward`: relu(bn(conv(x))), flatten, fc, log-softmax over
dim 1, exponentiate. -/
noncomputable def policyForward (training : Bool) (p : PolicyNetP) (x : T4) :
    Except TErr (T2 × PolicyNetP) := do
  let y ← conv2dApply p.conv x
  let (y, bn') ← bnApply training p.bn y
  let y := relu4 y
  let z ← linearApply p.fc (flattenT4 y)
  Except.ok (expT2 (logSoftmaxT2 z), { p with bn := bn' })

/-- The `ValueNet` module.  `outplanes` is stored but unused by any
layer: the head always ends in `Linear(256, 1)`. -/
structure ValueNetP where
  inplanes : ℕ
  outplanes : ℕ
  conv : Conv2dP
  bn : BatchNorm2dP
  fc1 : LinearP
  fc2 : LinearP

/-- `ValueNet.__init__`: `Conv2d(inplanes, 1, kernel_size=1)`,
`BatchNorm2d(1)`, `Linear(121, 256)`, `Linear(256, 1)`. -/
noncomputable def mkValueNet (inplanes outplanes : ℕ) (cw : ConvW) (bw : BNW)
    (fw1 fw2 : LinW) : ValueNetP :=
  { inplanes := inplanes, outplanes := outplanes,
    conv := { cin := inplanes, cout := 1, kh := 1, kw := 1, stride := 1,
              pad_h := 0, pad_w := 0,
              weight := cw.weight, bias := cw.bias, has_bias := true },
    bn := bnDefault 1 bw,
    fc1 := { in_features := 121, out_features := 256,
             weight := fw1.weight, bias := fw1.bias },
    fc2 := { in_features := 256, out_features := 1,
             weight := fw2.weight, bias := fw2.bias } }

/-- `ValueNet.forward`: relu(bn(conv(x))), flatten, relu(fc1), tanh(fc2). -/
noncomputable def valueForward (training : Bool) (p : ValueNetP) (x : T4) :
    Except TErr (T2 × ValueNetP) := do
  let y ← conv2dApply p.conv x
  let (y, bn') ← bnApply training p.bn y
  let y := relu4 y
  let z ← linearApply p.fc1 (flattenT4 y)
  let z := relu2 z
  let v ← linearApply p.fc2 z
  Except.ok (tanhT2 v, { p with bn := bn' })

/-- `self.encoder.blocks[-1].blocks[-1].expanded_channels`. -/
def encLastExpanded (e : EncoderP) : ℕ :=
  match e.blocks.getLast? with
  | some L =>
      match L.blocks.getLast? with
      | some blk => blk.out_channels * blk.expansion
      | none => 0
  | none => 0

/-- Devices a tensor can live on. -/
inductive Device where
  | cpu : Device
  | cuda : Device
  | xla : Device
deriving DecidableEq

/-- Scalar dtypes relevant to `predict`. -/
inductive DType where
  | f32 : DType
  | f64 : DType
deriving DecidableEq

/-- The `DualRes` module with its device configuration. -/
structure DualResP where
  use_cuda : Bool
  use_tpu : Bool
  dev : Option Device
  in_channels : ℕ
  n_classes : ℕ
  encoder : EncoderP
  policy : PolicyNetP
  value : ValueNetP

/-- All learned parameters of a `DualRes`. -/
structure DualW where
  enc : EncW
  pc : ConvW
  pb : BNW
  pf : LinW
  vc : ConvW
  vb : BNW
  vf1 : LinW
  vf2 : LinW

/-- `DualRes.__init__`: build the encoder, then heads whose input channel
count is `self.encoder.blocks[-1].blocks[-1].expanded_channels`.

The call `ResNetEncoder(in_channels, blocks_size=blocks_size,
deepths=deepths, *args, **kwargs)` misspells the encoder's
`blocks_sizes` keyword, so `blocks_size` lands in `**kwargs` and is
silently absorbed down the `ResNetLayer → ResNetBasicBlock →
ResNetResidualBlock` chain (whose `**kwargs` are never forwarded to any
module constructor).  The encoder therefore always uses its default
`blocks_sizes = [128]`; only `deepths` is wired through, and the
`blocks_size` argument has no effect on the constructed network. -/
noncomputable def mkDualRes (in_channels n_classes : ℕ) (cuda tpu : Bool)
    (dev : Option Device) (blocks_size deepths : List ℕ) (w : DualW) :
    Option DualResP :=
  match mkResNetEncoder in_channels [128] deepths w.enc with
  | some enc =>
      some { use_cuda := cuda, use_tpu := tpu, dev := dev,
             in_channels := in_channels, n_classes := n_classes,
             encoder := enc,
             policy := mkPolicyNet (encLastExpanded enc) n_classes w.pc w.pb w.pf,
             value := mkValueNet (encLastExpanded enc) n_classes w.vc w.vb w.vf1 w.vf2 }
  | none => none

/-- `DualRes.forward`, with the input dtype checked against the `f32`
parameter dtype (the framework raises at the first convolution when a
double tensor meets float parameters). -/
noncomputable def dualForward (training : Bool) (dtype : DType) (m : DualResP)
    (x : T4) : Except TErr ((T2 × T2) × DualResP) := do
  if dtype = DType.f32 then
    let (f, enc') ← encoderForward training m.encoder x
    let (pol, pol') ← policyForward training m.policy f
    let (v, val') ← valueForward training m.value f
    Except.ok ((pol, v), { m with encoder := enc', policy := pol', value := val' })
  else Except.error TErr.dtypeError

/-- A raw numpy array: flat shape, dtype, and flat data. -/
structure NpArray where
  shape : List ℕ
  dtype : DType
  data : ℕ → ℝ

/-- A framework tensor before the fixed reshape. -/
structure Tensor1 where
  dtype : DType
  device : Device
  shape : List ℕ
  data : ℕ → ℝ

/-- `torch.from_numpy`: host tensor sharing shape, dtype and data. -/
def torchFromNumpy (x : NpArray) : Tensor1 :=
  { dtype := x.dtype, device := Device.cpu, shape := x.shape, data := x.data }

/-- `Tensor.to(device)`: with `device=None` the framework leaves the
tensor unchanged (a no-op); with a device it moves the tensor there. -/
def tensorTo (t : Tensor1) (dev : Option Device) : Tensor1 :=
  match dev with
  | none => t
  | some d => { t with device := d }

/-- `torch.FloatTensor(x.astype(np.float64))`: a host float32 tensor with
the array's values (the float64 round-trip is value-preserving in the
real-valued idealisation). -/
def floatTensorOf (x : NpArray) : Tensor1 :=
  { dtype := DType.f32, device := Device.cpu, shape := x.shape, data := x.data }

/-- Number of elements of a shape. -/
def numel (s : List ℕ) : ℕ := s.prod

/-- `t.view(n, c, h, w)`: fails unless the element count matches. -/
def view4 (t : Tensor1) (n c h w : ℕ) : Except TErr T4 :=
  if numel t.shape = n * c * h * w then
    Except.ok { n := n, c := c, h := h, w := w,
                data := fun b ci i j => t.data (((b * c + ci) * h + i) * w + j) }
  else Except.error TErr.shapeError

/-- The mutable runtime state `predict` touches: the module tree (whose
batch-norm statistics training-mode forwards would mutate), the
train/eval mode flag, and the global autograd flag. -/
structure RunState where
  model : DualResP
  training : Bool
  grad_enabled : Bool

/-- `with torch.no_grad():` — save the autograd flag, run the body with
gradient tracking disabled, and restore the saved flag on exit whether or
not the body raised. -/
def withNoGrad {α : Type} (s : RunState)
    (body : RunState → Except TErr α × RunState) :
    Except TErr α × RunState :=
  let saved := s.grad_enabled
  let (r, s') := body { s with grad_enabled := false }
  (r, { s' with grad_enabled := saved })

/-- The tensor-conversion prologue of `DualRes.predict`:
`torch.from_numpy(x).to(self.dev)` in tpu mode, otherwise
`torch.FloatTensor(x.astype(np.float64))`, then `.contiguous().cuda()`
when `use_cuda`. -/
def predictConvert (m : DualResP) (x : NpArray) : Tensor1 :=
  let t : Tensor1 :=
    if m.use_tpu then tensorTo (torchFromNumpy x) m.dev else floatTensorOf x
  if m.use_cuda then { t with device := Device.cuda } else t

/-- `DualRes.predict`: device-specific tensor conversion, the fixed
`view(1, 10, 11, 11)` reshape, `self.eval()`, the no-grad region around
`forward`, and extraction of the batch-0 rows of both heads. -/
noncomputable def predict (s : RunState) (x : NpArray) :
    Except TErr ((ℕ → ℝ) × (ℕ → ℝ)) × RunState :=
  match view4 (predictConvert s.model x) 1 10 11 11 with
  | Except.error e => (Except.error e, s)
  | Except.ok x4 =>
      withNoGrad { s with training := false } (fun s2 =>
        match dualForward s2.training (predictConvert s.model x).dtype s2.model x4 with
        | Except.error e => (Except.error e, s2)
        | Except.ok ((pol, v), m') =>
            (Except.ok (fun i => pol.data 0 i, fun i => v.data 0 i),
             { s2 with model := m' }))

/-! ### Helper lemmas -/

@[simp] lemma relu4_n (x : T4) : (relu4 x).n = x.n := rfl
@[simp] lemma relu4_c (x : T4) : (relu4 x).c = x.c := rfl
@[simp] lemma relu4_h (x : T4) : (relu4 x).h = x.h := rfl
@[simp] lemma relu4_w (x : T4) : (relu4 x).w = x.w := rfl
@[simp] lemma relu2_n (x : T2) : (relu2 x).n = x.n := rfl
@[simp] lemma relu2_m (x : T2) : (relu2 x).m = x.m := rfl
@[simp] lemma flattenT4_n (x : T4) : (flattenT4 x).n = x.n := rfl
@[simp] lemma flattenT4_m (x : T4) : (flattenT4 x).m = x.c * x.h * x.w := rfl
@[simp] lemma expT2_n (x : T2) : (expT2 x).n = x.n := rfl
@[simp] lemma expT2_m (x : T2) : (expT2 x).m = x.m := rfl
@[simp] lemma logSoftmaxT2_n (x : T2) : (logSoftmaxT2 x).n = x.n := rfl
@[simp] lemma logSoftmaxT2_m (x : T2) : (logSoftmaxT2 x).m = x.m := rfl
@[simp] lemma tanhT2_n (x : T2) : (tanhT2 x).n = x.n := rfl
@[simp] lemma tanhT2_m (x : T2) : (tanhT2 x).m = x.m := rfl

lemma conv2dApply_ok (p : Conv2dP) (x : T4) (h1 : x.c = p.cin)
    (h2 : p.kh ≤ x.h + 2 * p.pad_h) (h3 : p.kw ≤ x.w + 2 * p.pad_w) :
    ∃ y, conv2dApply p x = Except.ok y ∧ y.n = x.n ∧ y.c = p.cout ∧
      y.h = convOutDim x.h p.kh p.stride p.pad_h ∧
      y.w = convOutDim x.w p.kw p.stride p.pad_w := by
  have heq : conv2dApply p x = Except.ok
      { n := x.n, c := p.cout,
        h := convOutDim x.h p.kh p.stride p.pad_h,
        w := convOutDim x.w p.kw p.stride p.pad_w,
        data := fun b co i j =>
          (if p.has_bias then p.bias co else 0) +
          ∑ ci ∈ Finset.range p.cin, ∑ ki ∈ Finset.range p.kh,
            ∑ kj ∈ Finset.range p.kw,
              p.weight co ci ki kj *
                padRead x b ci
                  ((i : Int) * (p.stride : Int) + (ki : Int) - (p.pad_h : Int))
                  ((j : Int) * (p.stride : Int) + (kj : Int) - (p.pad_w : Int)) } := by
    unfold conv2dApply
    rw [if_pos ⟨h1, h2, h3⟩]
  exact ⟨_, heq, rfl, rfl, rfl, rfl⟩

lemma conv2dApply_error (p : Conv2dP) (x : T4) (e : TErr)
    (h : conv2dApply p x = Except.error e) : e = TErr.shapeError := by
  unfold conv2dApply at h
  split at h
  · exact absurd h (by simp)
  · exact (Except.error.injEq _ _).mp h.symm

lemma bnApply_ok (tr : Bool) (p : BatchNorm2dP) (x : T4)
    (h : x.c = p.num_features) :
    ∃ y q, bnApply tr p x = Except.ok (y, q) ∧ y.n = x.n ∧ y.c = x.c ∧
      y.h = x.h ∧ y.w = x.w ∧ (tr = false → q = p) := by
  cases tr with
  | false =>
      have heq : bnApply false p x = Except.ok
          ({ x with data := fun b c i j =>
              p.gamma c * (x.data b c i j - p.running_mean c) /
                Real.sqrt (p.running_var c + p.eps) + p.beta c }, p) := by
        unfold bnApply
        rw [if_pos h]
        simp only [Bool.false_eq_true, if_false]
      exact ⟨_, _, heq, rfl, rfl, rfl, rfl, fun _ => rfl⟩
  | true =>
      have heq : ∃ y q, bnApply true p x = Except.ok (y, q) ∧
          y.n = x.n ∧ y.c = x.c ∧ y.h = x.h ∧ y.w = x.w := by
        unfold bnApply
        rw [if_pos h]
        simp only [if_true]
        exact ⟨_, _, rfl, rfl, rfl, rfl, rfl⟩
      obtain ⟨y, q, heq, a, b, c, d⟩ := heq
      exact ⟨y, q, heq, a, b, c, d, by simp⟩

lemma bnApply_error (tr : Bool) (p : BatchNorm2dP) (x : T4) (e : TErr)
    (h : bnApply tr p x = Except.error e) : e = TErr.shapeError := by
  unfold bnApply at h
  split at h
  · split at h <;> exact absurd h (by simp)
  · exact (Except.error.injEq _ _).mp h.symm

lemma bnApply_false_params (p : BatchNorm2dP) (x : T4) (y : T4)
    (q : BatchNorm2dP) (h : bnApply false p x = Except.ok (y, q)) : q = p := by
  unfold bnApply at h
  split at h
  · simp only [Bool.false_eq_true, if_false] at h
    cases h
    rfl
  · exact absurd h (by simp)

lemma linearApply_ok (p : LinearP) (x : T2) (h : x.m = p.in_features) :
    ∃ z, linearApply p x = Except.ok z ∧ z.n = x.n ∧ z.m = p.out_features := by
  have heq : linearApply p x = Except.ok
      { n := x.n, m := p.out_features,
        data := fun b o =>
          p.bias o + ∑ k ∈ Finset.range p.in_features, p.weight o k * x.data b k } := by
    unfold linearApply
    rw [if_pos h]
  exact ⟨_, heq, rfl, rfl⟩

lemma linearApply_error (p : LinearP) (x : T2) (e : TErr)
    (h : linearApply p x = Except.error e) : e = TErr.shapeError := by
  unfold linearApply at h
  split at h
  · exact absurd h (by simp)
  · exact (Except.error.injEq _ _).mp h.symm

/-- The hyperbolic tangent takes values strictly inside `(-1, 1)`. -/
lemma tanh_bounds (x : ℝ) : -1 < Real.tanh x ∧ Real.tanh x < 1 := by
  have hc : 0 < Real.cosh x := Real.cosh_pos x
  have hs : Real.sinh x = (Real.exp x - Real.exp (-x)) / 2 := Real.sinh_eq x
  have hco : Real.cosh x = (Real.exp x + Real.exp (-x)) / 2 := Real.cosh_eq x
  have he1 : 0 < Real.exp x := Real.exp_pos x
  have he2 : 0 < Real.exp (-x) := Real.exp_pos (-x)
  rw [Real.tanh_eq_sinh_div_cosh]
  constructor
  · rw [lt_div_iff₀ hc]
    nlinarith
  · rw [div_lt_iff₀ hc]
    nlinarith

lemma sum_exp_pos (m : ℕ) (hm : 1 ≤ m) (f : ℕ → ℝ) :
    0 < ∑ k ∈ Finset.range m, Real.exp (f k) :=
  Finset.sum_pos (fun i _ => Real.exp_pos (f i))
    (Finset.nonempty_range_iff.mpr (by omega))

/-- Exponentiated log-softmax yields a nonnegative family summing to one
over the feature dimension. -/
lemma softmax_dist (z : T2) (hm : 1 ≤ z.m) :
    (∀ b o, 0 ≤ (expT2 (logSoftmaxT2 z)).data b o) ∧
      (∀ b, ∑ o ∈ Finset.range z.m, (expT2 (logSoftmaxT2 z)).data b o = 1) := by
  constructor
  · intro b o
    exact (Real.exp_pos _).le
  · intro b
    have hS : 0 < ∑ k ∈ Finset.range z.m, Real.exp (z.data b k) :=
      sum_exp_pos z.m hm (z.data b)
    simp only [expT2, logSoftmaxT2, Real.exp_sub, Real.exp_log hS]
    rw [← Finset.sum_div, div_self (ne_of_gt hS)]

/-! ### Concrete parameter states used for closed instantiations -/

def zeroConvW : ConvW := ⟨fun _ _ _ _ => 0, fun _ => 0⟩

def zeroBNW : BNW := ⟨fun _ => 0, fun _ => 0, fun _ => 0, fun _ => 0⟩

def zeroLinW : LinW := ⟨fun _ _ => 0, fun _ => 0⟩

def zeroBlockW : BlockW := ⟨zeroConvW, zeroBNW, zeroConvW, zeroBNW, zeroConvW, zeroBNW⟩

def zeroEncW : EncW := ⟨zeroConvW, zeroBNW, fun _ => zeroBlockW⟩

def zeroDualW : DualW :=
  ⟨zeroEncW, zeroConvW, zeroBNW, zeroLinW, zeroConvW, zeroBNW, zeroLinW, zeroLinW⟩

/-- An all-zero `(1, 1, 11, 11)` feature map. -/
def zeroT4 : T4 := ⟨1, 1, 11, 11, fun _ _ _ _ => 0⟩

/-- Spatial size of a convolution result (junk `(0, 0)` on error). -/
def exceptOutHW : Except TErr T4 → ℕ × ℕ
  | .ok y => (y.h, y.w)
  | .error _ => (0, 0)

/-- A `Conv2dAuto` with the even kernel size 2 in both dimensions. -/
def evenKConv : Conv2dP := mkConv2dAuto 1 1 2 2 1 false zeroConvW

/-- An all-zero `(1, 1, 4, 4)` input. -/
def evenKInput : T4 := ⟨1, 1, 4, 4, fun _ _ _ _ => 0⟩

/-! ### Claim C4 -/

/-- Claim C4 counterexample: the claim asserts that for every valid
kernel size, including even ones, a stride-1 `Conv2dAuto` preserves the
spatial size.  For kernel size 2 the constructed padding is `2 // 2 = 1`,
but a stride-1 convolution then maps a `4x4` input to a `5x5` output. -/
theorem claim_C4_counterexample :
    evenKConv.pad_h = 2 / 2 ∧ evenKConv.pad_w = 2 / 2 ∧ evenKInput.h = 4 ∧
      evenKInput.w = 4 ∧ exceptOutHW (conv2dApply evenKConv evenKInput) = (5, 5) ∧
      ¬ ((5 : ℕ) = 4) := by
  refine ⟨rfl, rfl, rfl, rfl, ?_, by decide⟩
  rfl

/-- Claim C4 (amended): a constructed `Conv2dAuto` has padding `⌊k/2⌋`
in each spatial dimension for every valid kernel size, even included;
for stride 1 and *odd* kernel sizes the convolution's output spatial
size equals its input spatial size (for even kernel sizes it is the
input size plus one, so stride-1 convolutions never shrink the input). -/
theorem claim_C4_amended (cin cout kh kw stride : ℕ) (hb : Bool) (w : ConvW) :
    (mkConv2dAuto cin cout kh kw stride hb w).pad_h = kh / 2 ∧
    (mkConv2dAuto cin cout kh kw stride hb w).pad_w = kw / 2 ∧
    (∀ x : T4, x.c = cin → 1 ≤ x.h → 1 ≤ x.w → Odd kh → Odd kw → stride = 1 →
      ∃ y, conv2dApply (mkConv2dAuto cin cout kh kw stride hb w) x = Except.ok y ∧
        y.h = x.h ∧ y.w = x.w) := by
  refine ⟨rfl, rfl, ?_⟩
  intro x hc hh hw hkh hkw hs
  obtain ⟨mh, hmh⟩ := hkh
  obtain ⟨mw, hmw⟩ := hkw
  have hdh : kh / 2 = mh := by omega
  have hdw : kw / 2 = mw := by omega
  obtain ⟨y, hy, _, _, hyh, hyw⟩ :=
    conv2dApply_ok (mkConv2dAuto cin cout kh kw stride hb w) x hc
      (by simp only [mkConv2dAuto]; omega)
      (by simp only [mkConv2dAuto]; omega)
  refine ⟨y, hy, ?_, ?_⟩
  · rw [hyh]
    simp only [mkConv2dAuto, convOutDim, hs, hdh]
    omega
  · rw [hyw]
    simp only [mkConv2dAuto, convOutDim, hs, hdw]
    omega

/-- Claim C4 witness. -/
theorem claim_C4_witness :
    (mkConv2dAuto 1 1 3 3 1 false zeroConvW).pad_h = 3 / 2 ∧
    (mkConv2dAuto 1 1 3 3 1 false zeroConvW).pad_w = 3 / 2 ∧
    ∃ y, conv2dApply (mkConv2dAuto 1 1 3 3 1 false zeroConvW) zeroT4 =
        Except.ok y ∧ y.h = zeroT4.h ∧ y.w = zeroT4.w :=
  ⟨(claim_C4_amended 1 1 3 3 1 false zeroConvW).1,
   (claim_C4_amended 1 1 3 3 1 false zeroConvW).2.1,
   (claim_C4_amended 1 1 3 3 1 false zeroConvW).2.2 zeroT4 rfl (by decide)
     (by decide) ⟨1, by decide⟩ ⟨1, by decide⟩ rfl⟩

/-! ### Claim C10 -/

/-- Claim C10: in every residual block with
`in_channels = out_channels * expansion` the stored shortcut is `None`
(not an identity module), yet `forward` never fails by calling `None`:
the `should_apply_shortcut` guard is false exactly in that case, so the
branch that would invoke the `None` shortcut is unreachable. -/
theorem claim_C10 (i o e d : ℕ) (bw : BlockW) (h : i = o * e) :
    (mkBasicBlock i o e d bw).shortcut = none ∧
    ∀ (tr : Bool) (x : T4),
      blockForward tr (mkBasicBlock i o e d bw) x ≠
        Except.error TErr.noneCallError := by
  have hsc : (mkBasicBlock i o e d bw).shortcut = none := by
    simp only [mkBasicBlock, mkShortcut]
    rw [if_neg (by omega)]
  refine ⟨hsc, ?_⟩
  intro tr x hbad
  have hsac : ¬ shouldApplyShortcut (mkBasicBlock i o e d bw) := by
    simp only [shouldApplyShortcut, mkBasicBlock]
    omega
  unfold blockForward at hbad
  rw [if_neg hsac] at hbad
  simp only [bind, Except.bind] at hbad
  cases h1 : conv2dApply (mkBasicBlock i o e d bw).conv1 x with
  | error e1 =>
      rw [h1] at hbad
      have := conv2dApply_error _ _ _ h1
      simp [this] at hbad
  | ok y1 =>
      rw [h1] at hbad
      simp only [] at hbad
      cases h2 : bnApply tr (mkBasicBlock i o e d bw).bn1 y1 with
      | error e2 =>
          rw [h2] at hbad
          have := bnApply_error _ _ _ _ h2
          simp [this] at hbad
      | ok p2 =>
          obtain ⟨y2, bn1'⟩ := p2
          rw [h2] at hbad
          simp only [] at hbad
          cases h3 : conv2dApply (mkBasicBlock i o e d bw).conv2 (relu4 y2) with
          | error e3 =>
              rw [h3] at hbad
              have := conv2dApply_error _ _ _ h3
              simp [this] at hbad
          | ok y3 =>
              rw [h3] at hbad
              simp only [] at hbad
              cases h4 : bnApply tr (mkBasicBlock i o e d bw).bn2 y3 with
              | error e4 =>
                  rw [h4] at hbad
                  have := bnApply_error _ _ _ _ h4
                  simp [this] at hbad
              | ok p4 =>
                  obtain ⟨y4, bn2'⟩ := p4
                  rw [h4] at hbad
                  simp only [] at hbad
                  by_cases h5 : y4.n = x.n ∧ y4.c = x.c ∧ y4.h = x.h ∧ y4.w = x.w
                  · rw [if_pos h5] at hbad
                    simp at hbad
                  · rw [if_neg h5] at hbad
                    simp at hbad

/-- Claim C10 witness. -/
theorem claim_C10_witness :
    (mkBasicBlock 1 1 1 1 zeroBlockW).shortcut = none ∧
    ∀ (tr : Bool) (x : T4),
      blockForward tr (mkBasicBlock 1 1 1 1 zeroBlockW) x ≠
        Except.error TErr.noneCallError :=
  claim_C10 1 1 1 1 zeroBlockW (by decide)

/-! ### Claim C7 -/

lemma getLast?_pred {α : Type} (P : α → Prop) :
    ∀ (l : List α) (a : α), P a → (∀ y ∈ l, P y) →
      ∀ b, (a :: l).getLast? = some b → P b := by
  intro l
  induction l with
  | nil =>
      intro a ha _ b hb
      simp only [List.getLast?_singleton, Option.some.injEq] at hb
      exact hb ▸ ha
  | cons c l ih =>
      intro a ha h b hb
      rw [List.getLast?_cons_cons] at hb
      exact ih c (h c (by simp)) (fun y hy => h y (by simp [hy])) b hb

/-- Every block of a constant-width layer has `out_channels = out` and
`expansion = basicExpansion`. -/
lemma layer_last_block (i o n : ℕ) (W : ℕ → BlockW) :
    ∀ blk, (mkResNetLayer i o n W).blocks.getLast? = some blk →
      blk.out_channels * blk.expansion = o * basicExpansion := by
  intro blk hblk
  unfold mkResNetLayer at hblk
  refine getLast?_pred
    (fun b => b.out_channels * b.expansion = o * basicExpansion) _ _ rfl ?_ blk hblk
  intro y hy
  obtain ⟨idx, _, rfl⟩ := List.mem_map.mp hy
  rfl

lemma encLastExpanded_mk (in_ch b0 d0 : ℕ) (bs ds : List ℕ) (w : EncW)
    (e : EncoderP) (h : mkResNetEncoder in_ch (b0 :: bs) (d0 :: ds) w = some e) :
    encLastExpanded e = b0 * basicExpansion ∧
      e.blocks = [mkResNetLayer b0 b0 d0 w.layerW] := by
  unfold mkResNetEncoder at h
  simp only [Option.some.injEq] at h
  subst h
  constructor
  · unfold encLastExpanded
    simp only [List.getLast?_singleton]
    have hne : (mkResNetLayer b0 b0 d0 w.layerW).blocks ≠ [] := by
      unfold mkResNetLayer
      simp
    cases hbl : (mkResNetLayer b0 b0 d0 w.layerW).blocks.getLast? with
    | none =>
        exact absurd (List.getLast?_eq_none_iff.mp hbl) hne
    | some blk =>
        exact layer_last_block b0 b0 d0 w.layerW blk hbl
  · rfl

/-- Claim C7 counterexample: the claim asserts that the `DualRes`-built
encoder runs at constant width `blocks_sizes[0]` and that the heads are
constructed with `blocks_sizes[0] * expansion` input channels.  With
`blocks_size = [1]` the claim demands width 1, but the misspelled
keyword `blocks_size=` is swallowed by `ResNetEncoder`'s `**kwargs`, so
the constructed stage is `ResNetLayer(128, 128)` and both heads receive
128 input channels, and `128 ≠ 1 * expansion`. -/
theorem claim_C7_counterexample :
    (mkDualRes 10 1 false false none [1] [1] zeroDualW).map
        (fun m => m.encoder.blocks) =
      some [mkResNetLayer 128 128 1 zeroEncW.layerW] ∧
    (mkDualRes 10 1 false false none [1] [1] zeroDualW).map
        (fun m => m.policy.inplanes) = some 128 ∧
    (mkDualRes 10 1 false false none [1] [1] zeroDualW).map
        (fun m => m.value.inplanes) = some 128 ∧
    ¬ ((128 : ℕ) = 1 * basicExpansion) :=
  ⟨rfl, rfl, rfl, by decide⟩

/-- Claim C7 (amended): the `Encoder` constructor itself builds exactly
one `ResNetLayer`, at constant width `blocks_sizes[0]` with depth
`deepths[0]`, entries beyond index 0 of either list having no effect on
the constructed network.  A `DualRes`, however, passes the width under
the misspelled keyword `blocks_size=`, which the encoder's `**kwargs`
silently swallows: the `blocks_size` argument has no effect at all, the
single stage always runs at the encoder's default width 128 (with
`deepths` entries beyond index 0 likewise without effect), and both
heads are constructed with input channel count `128 * expansion`, the
final block's expanded channel count. -/
theorem claim_C7_amended (in_ch n_classes : ℕ) (cuda tpu : Bool)
    (dev : Option Device) (b0 d0 : ℕ) (bs ds : List ℕ) (bl bl' : List ℕ)
    (w : DualW) :
    mkResNetEncoder in_ch (b0 :: bs) (d0 :: ds) w.enc =
      mkResNetEncoder in_ch [b0] [d0] w.enc ∧
    (mkResNetEncoder in_ch (b0 :: bs) (d0 :: ds) w.enc).map
        (fun e => e.blocks) = some [mkResNetLayer b0 b0 d0 w.enc.layerW] ∧
    mkDualRes in_ch n_classes cuda tpu dev bl (d0 :: ds) w =
      mkDualRes in_ch n_classes cuda tpu dev bl' (d0 :: ds) w ∧
    mkDualRes in_ch n_classes cuda tpu dev bl (d0 :: ds) w =
      mkDualRes in_ch n_classes cuda tpu dev bl [d0] w ∧
    (mkDualRes in_ch n_classes cuda tpu dev bl (d0 :: ds) w).map
        (fun m => m.encoder.blocks) =
      some [mkResNetLayer 128 128 d0 w.enc.layerW] ∧
    (mkDualRes in_ch n_classes cuda tpu dev bl (d0 :: ds) w).map
        (fun m => (m.policy.inplanes, m.policy.conv.cin)) =
      some (128 * basicExpansion, 128 * basicExpansion) ∧
    (mkDualRes in_ch n_classes cuda tpu dev bl (d0 :: ds) w).map
        (fun m => (m.value.inplanes, m.value.conv.cin)) =
      some (128 * basicExpansion, 128 * basicExpansion) := by
  obtain ⟨e, he⟩ : ∃ e, mkResNetEncoder in_ch [128] (d0 :: ds) w.enc =
      some e := by
    unfold mkResNetEncoder
    exact ⟨_, rfl⟩
  obtain ⟨hlast, hblocks⟩ := encLastExpanded_mk in_ch 128 d0 [] ds w.enc e he
  have hmk : mkDualRes in_ch n_classes cuda tpu dev bl (d0 :: ds) w =
      some { use_cuda := cuda, use_tpu := tpu, dev := dev,
             in_channels := in_ch, n_classes := n_classes,
             encoder := e,
             policy := mkPolicyNet (encLastExpanded e) n_classes w.pc w.pb w.pf,
             value := mkValueNet (encLastExpanded e) n_classes w.vc w.vb
               w.vf1 w.vf2 } := by
    unfold mkDualRes
    rw [he]
  refine ⟨rfl, ?_, rfl, rfl, ?_, ?_, ?_⟩
  · obtain ⟨e2, he2⟩ : ∃ e2, mkResNetEncoder in_ch (b0 :: bs) (d0 :: ds)
        w.enc = some e2 := by
      unfold mkResNetEncoder
      exact ⟨_, rfl⟩
    obtain ⟨_, hblocks2⟩ := encLastExpanded_mk in_ch b0 d0 bs ds w.enc e2 he2
    rw [he2]
    simp [hblocks2]
  · rw [hmk]
    simp [hblocks]
  · rw [hmk]
    simp [mkPolicyNet, hlast]
  · rw [hmk]
    simp [mkValueNet, hlast]

/-! ### Claim C1 -/

/-- `PolicyNet.forward` on a channel-matching `11x11` input succeeds and
yields a probability distribution over the action dimension. -/
lemma policyForward_spec (inplanes outplanes : ℕ) (cw : ConvW) (bw : BNW) (fw : LinW)
    (tr : Bool) (x : T4) (hc : x.c = inplanes) (hh : x.h = 11) (hw : x.w = 11)
    (ho : 1 ≤ outplanes) :
    ∃ pr p', policyForward tr (mkPolicyNet inplanes outplanes cw bw fw) x =
        Except.ok (pr, p') ∧ pr.m = outplanes ∧
      (∀ b o, 0 ≤ pr.data b o) ∧
      (∀ b, ∑ o ∈ Finset.range outplanes, pr.data b o = 1) := by
  obtain ⟨y1, hy1, hn1, hc1, hh1, hw1⟩ :=
    conv2dApply_ok (mkPolicyNet inplanes outplanes cw bw fw).conv x
      (by simp only [mkPolicyNet]; exact hc)
      (by simp only [mkPolicyNet]; omega)
      (by simp only [mkPolicyNet]; omega)
  simp only [mkPolicyNet] at hc1 hh1 hw1
  rw [hh] at hh1
  rw [hw] at hw1
  norm_num [convOutDim] at hh1 hw1
  obtain ⟨y2, q2, hy2, hn2, hc2, hh2, hw2, _⟩ :=
    bnApply_ok tr (mkPolicyNet inplanes outplanes cw bw fw).bn y1
      (by simp only [mkPolicyNet, bnDefault]; exact hc1)
  obtain ⟨z, hz, hzn, hzm⟩ :=
    linearApply_ok (mkPolicyNet inplanes outplanes cw bw fw).fc
      (flattenT4 (relu4 y2))
      (by simp only [mkPolicyNet, flattenT4_m, relu4_c, relu4_h, relu4_w]
          rw [hc2, hh2, hw2, hc1, hh1, hw1])
  simp only [mkPolicyNet] at hzm
  have hrun : policyForward tr (mkPolicyNet inplanes outplanes cw bw fw) x =
      Except.ok (expT2 (logSoftmaxT2 z),
        { mkPolicyNet inplanes outplanes cw bw fw with bn := q2 }) := by
    unfold policyForward
    simp only [bind, Except.bind]
    rw [hy1]
    simp only []
    rw [hy2]
    simp only []
    rw [hz]
  refine ⟨expT2 (logSoftmaxT2 z), _, hrun, by simp [hzm], ?_, ?_⟩
  · exact (softmax_dist z (by omega)).1
  · intro b
    have := (softmax_dist z (by rw [hzm]; omega)).2 b
    rw [hzm] at this
    exact this

/-- Claim C1: for every parameter state, batch size and finite input
with an `11x11` spatial map and matching channel count (and a nonempty
action dimension), `PolicyNet.forward` succeeds and returns a valid
probability distribution over the action dimension: every entry is
nonnegative and each batch row sums to one, because log-softmax over the
action dimension is followed by exponentiation. -/
theorem claim_C1 (inplanes outplanes : ℕ) (cw : ConvW) (bw : BNW) (fw : LinW)
    (tr : Bool) (x : T4) (hc : x.c = inplanes) (hh : x.h = 11) (hw : x.w = 11)
    (ho : 1 ≤ outplanes) :
    ∃ pr p', policyForward tr (mkPolicyNet inplanes outplanes cw bw fw) x =
        Except.ok (pr, p') ∧ pr.m = outplanes ∧
      (∀ b o, 0 ≤ pr.data b o) ∧
      (∀ b, ∑ o ∈ Finset.range outplanes, pr.data b o = 1) :=
  policyForward_spec inplanes outplanes cw bw fw tr x hc hh hw ho

/-- Claim C1 witness. -/
theorem claim_C1_witness :
    ∃ pr p', policyForward false (mkPolicyNet 1 2 zeroConvW zeroBNW zeroLinW)
        zeroT4 = Except.ok (pr, p') ∧ pr.m = 2 ∧
      (∀ b o, 0 ≤ pr.data b o) ∧
      (∀ b, ∑ o ∈ Finset.range 2, pr.data b o = 1) :=
  claim_C1 1 2 zeroConvW zeroBNW zeroLinW false zeroT4 rfl rfl rfl (by decide)

/-! ### Claim C2 -/

lemma valueForward_map_fst (tr : Bool) (p q : ValueNetP) (x : T4)
    (hc : p.conv = q.conv) (hb : p.bn = q.bn) (h1 : p.fc1 = q.fc1)
    (h2 : p.fc2 = q.fc2) :
    (valueForward tr p x).map Prod.fst = (valueForward tr q x).map Prod.fst := by
  unfold valueForward
  rw [hc, hb, h1, h2]
  simp only [bind, Except.bind]
  cases hs1 : conv2dApply q.conv x with
  | error e => rfl
  | ok y1 =>
      simp only []
      cases hs2 : bnApply tr q.bn y1 with
      | error e => rfl
      | ok p2 =>
          obtain ⟨y2, bn'⟩ := p2
          simp only []
          cases hs3 : linearApply q.fc1 (flattenT4 (relu4 y2)) with
          | error e => rfl
          | ok z1 =>
              simp only []
              cases hs4 : linearApply q.fc2 (relu2 z1) with
              | error e => rfl
              | ok v => rfl

/-- `ValueNet.forward` on a channel-matching `11x11` input succeeds with
a single scalar per batch element, strictly inside `(-1, 1)`, and the
output ignores `outplanes`. -/
lemma valueForward_spec (inplanes outplanes : ℕ) (cw : ConvW) (bw : BNW)
    (fw1 fw2 : LinW) (tr : Bool) (x : T4) (hc : x.c = inplanes)
    (hh : x.h = 11) (hw : x.w = 11) :
    ∃ v p', valueForward tr (mkValueNet inplanes outplanes cw bw fw1 fw2) x =
        Except.ok (v, p') ∧ v.m = 1 ∧
      (∀ b k, -1 < v.data b k ∧ v.data b k < 1) ∧
      (∀ outplanes' : ℕ,
        (valueForward tr (mkValueNet inplanes outplanes' cw bw fw1 fw2) x).map
            Prod.fst =
          (valueForward tr (mkValueNet inplanes outplanes cw bw fw1 fw2) x).map
            Prod.fst) := by
  obtain ⟨y1, hy1, hn1, hc1, hh1, hw1⟩ :=
    conv2dApply_ok (mkValueNet inplanes outplanes cw bw fw1 fw2).conv x
      (by simp only [mkValueNet]; exact hc)
      (by simp only [mkValueNet]; omega)
      (by simp only [mkValueNet]; omega)
  simp only [mkValueNet] at hc1 hh1 hw1
  rw [hh] at hh1
  rw [hw] at hw1
  norm_num [convOutDim] at hh1 hw1
  obtain ⟨y2, q2, hy2, hn2, hc2, hh2, hw2, _⟩ :=
    bnApply_ok tr (mkValueNet inplanes outplanes cw bw fw1 fw2).bn y1
      (by simp only [mkValueNet, bnDefault]; exact hc1)
  obtain ⟨z1, hz1, hz1n, hz1m⟩ :=
    linearApply_ok (mkValueNet inplanes outplanes cw bw fw1 fw2).fc1
      (flattenT4 (relu4 y2))
      (by simp only [mkValueNet, flattenT4_m, relu4_c, relu4_h, relu4_w]
          rw [hc2, hh2, hw2, hc1, hh1, hw1])
  simp only [mkValueNet] at hz1m
  obtain ⟨v0, hv0, hv0n, hv0m⟩ :=
    linearApply_ok (mkValueNet inplanes outplanes cw bw fw1 fw2).fc2 (relu2 z1)
      (by simp only [mkValueNet, relu2_m]; rw [hz1m])
  simp only [mkValueNet] at hv0m
  have hrun : valueForward tr (mkValueNet inplanes outplanes cw bw fw1 fw2) x =
      Except.ok (tanhT2 v0,
        { mkValueNet inplanes outplanes cw bw fw1 fw2 with bn := q2 }) := by
    unfold valueForward
    simp only [bind, Except.bind]
    rw [hy1]
    simp only []
    rw [hy2]
    simp only []
    rw [hz1]
    simp only []
    rw [hv0]
  refine ⟨tanhT2 v0, _, hrun, by simp [hv0m], ?_, ?_⟩
  · intro b k
    exact tanh_bounds (v0.data b k)
  · intro o'
    exact valueForward_map_fst tr (mkValueNet inplanes o' cw bw fw1 fw2)
      (mkValueNet inplanes outplanes cw bw fw1 fw2) x rfl rfl rfl rfl

/-- Claim C2: for every parameter state and finite input with an `11x11`
spatial map and matching channel count, `ValueNet.forward` succeeds and
every entry of its output lies strictly within `(-1, 1)` (the final
fully-connected output passes through the hyperbolic tangent); the head
emits a single scalar per batch element (output feature dimension 1),
and the numeric output is unchanged under any other `n_classes` the head
could have been constructed with. -/
theorem claim_C2 (inplanes outplanes : ℕ) (cw : ConvW) (bw : BNW)
    (fw1 fw2 : LinW) (tr : Bool) (x : T4) (hc : x.c = inplanes)
    (hh : x.h = 11) (hw : x.w = 11) :
    ∃ v p', valueForward tr (mkValueNet inplanes outplanes cw bw fw1 fw2) x =
        Except.ok (v, p') ∧ v.m = 1 ∧
      (∀ b k, -1 < v.data b k ∧ v.data b k < 1) ∧
      (∀ outplanes' : ℕ,
        (valueForward tr (mkValueNet inplanes outplanes' cw bw fw1 fw2) x).map
            Prod.fst =
          (valueForward tr (mkValueNet inplanes outplanes cw bw fw1 fw2) x).map
            Prod.fst) :=
  valueForward_spec inplanes outplanes cw bw fw1 fw2 tr x hc hh hw

/-- Claim C2 witness. -/
theorem claim_C2_witness :
    ∃ v p', valueForward false (mkValueNet 1 5 zeroConvW zeroBNW zeroLinW
        zeroLinW) zeroT4 = Except.ok (v, p') ∧ v.m = 1 ∧
      (∀ b k, -1 < v.data b k ∧ v.data b k < 1) ∧
      (∀ outplanes' : ℕ,
        (valueForward false (mkValueNet 1 outplanes' zeroConvW zeroBNW zeroLinW
            zeroLinW) zeroT4).map Prod.fst =
          (valueForward false (mkValueNet 1 5 zeroConvW zeroBNW zeroLinW
            zeroLinW) zeroT4).map Prod.fst) :=
  claim_C2 1 5 zeroConvW zeroBNW zeroLinW zeroLinW false zeroT4 rfl rfl rfl

/-! ### Claim C3 -/

/-- Claim C3: every call to `predict` runs `forward` inside the no-grad
region, and the autograd flag is restored to its incoming value on every
exit path — including when `forward` raises (the error is returned after
the `with` block's exit action runs); moreover a `predict` call that
returns leaves the model in evaluation mode (`training = false`), a
persistent side effect. -/
theorem claim_C3 (s : RunState) (x : NpArray) :
    (predict s x).2.grad_enabled = s.grad_enabled ∧
    (exOk (predict s x).1 = true → (predict s x).2.training = false) := by
  unfold predict
  cases hv : view4 (predictConvert s.model x) 1 10 11 11 with
  | error e =>
      refine ⟨rfl, ?_⟩
      intro h
      simp [exOk] at h
  | ok x4 =>
      unfold withNoGrad
      dsimp only
      cases hd : dualForward false (predictConvert s.model x).dtype s.model x4 with
      | error e => exact ⟨rfl, fun _ => rfl⟩
      | ok r =>
          obtain ⟨⟨pol, v⟩, m'⟩ := r
          exact ⟨rfl, fun _ => rfl⟩

/-! ### Claim C8: evaluation-mode forwards do not mutate parameters -/

lemma blockForward_false_params (blk : BasicBlockP) (x y : T4)
    (blk' : BasicBlockP) (h : blockForward false blk x = Except.ok (y, blk')) :
    blk' = blk := by
  unfold blockForward at h
  simp only [bind, Except.bind] at h
  by_cases hsac : shouldApplyShortcut blk
  · rw [if_pos hsac] at h
    cases hs : blk.shortcut with
    | none => rw [hs] at h; simp at h
    | some cb =>
        obtain ⟨cp, bp⟩ := cb
        rw [hs] at h
        simp only [] at h
        cases h1 : conv2dApply cp x with
        | error e => rw [h1] at h; simp at h
        | ok r =>
            rw [h1] at h
            simp only [] at h
            cases h2 : bnApply false bp r with
            | error e => rw [h2] at h; simp at h
            | ok rb =>
                obtain ⟨r2, bp2⟩ := rb
                rw [h2] at h
                simp only [] at h
                have hbp2 : bp2 = bp := bnApply_false_params _ _ _ _ h2
                cases h3 : conv2dApply blk.conv1 x with
                | error e => rw [h3] at h; simp at h
                | ok y1 =>
                    rw [h3] at h
                    simp only [] at h
                    cases h4 : bnApply false blk.bn1 y1 with
                    | error e => rw [h4] at h; simp at h
                    | ok p4 =>
                        obtain ⟨y2, bn1'⟩ := p4
                        rw [h4] at h
                        simp only [] at h
                        have hbn1 : bn1' = blk.bn1 :=
                          bnApply_false_params _ _ _ _ h4
                        cases h5 : conv2dApply blk.conv2 (relu4 y2) with
                        | error e => rw [h5] at h; simp at h
                        | ok y3 =>
                            rw [h5] at h
                            simp only [] at h
                            cases h6 : bnApply false blk.bn2 y3 with
                            | error e => rw [h6] at h; simp at h
                            | ok p6 =>
                                obtain ⟨y4, bn2'⟩ := p6
                                rw [h6] at h
                                simp only [] at h
                                have hbn2 : bn2' = blk.bn2 :=
                                  bnApply_false_params _ _ _ _ h6
                                split at h
                                · injection h with hp
                                  have hsnd := congrArg Prod.snd hp
                                  simp only [] at hsnd
                                  rw [← hsnd, hbn1, hbn2, hbp2, ← hs]
                                · simp at h
  · rw [if_neg hsac] at h
    cases h3 : conv2dApply blk.conv1 x with
    | error e => rw [h3] at h; simp at h
    | ok y1 =>
        rw [h3] at h
        simp only [] at h
        cases h4 : bnApply false blk.bn1 y1 with
        | error e => rw [h4] at h; simp at h
        | ok p4 =>
            obtain ⟨y2, bn1'⟩ := p4
            rw [h4] at h
            simp only [] at h
            have hbn1 : bn1' = blk.bn1 := bnApply_false_params _ _ _ _ h4
            cases h5 : conv2dApply blk.conv2 (relu4 y2) with
            | error e => rw [h5] at h; simp at h
            | ok y3 =>
                rw [h5] at h
                simp only [] at h
                cases h6 : bnApply false blk.bn2 y3 with
                | error e => rw [h6] at h; simp at h
                | ok p6 =>
                    obtain ⟨y4, bn2'⟩ := p6
                    rw [h6] at h
                    simp only [] at h
                    have hbn2 : bn2' = blk.bn2 :=
                      bnApply_false_params _ _ _ _ h6
                    split at h
                    · injection h with hp
                      have hsnd := congrArg Prod.snd hp
                      simp only [] at hsnd
                      rw [← hsnd, hbn1, hbn2]
                    · simp at h

lemma blocksForward_false_params :
    ∀ (l : List BasicBlockP) (x y : T4) (l' : List BasicBlockP),
      blocksForward false l x = Except.ok (y, l') → l' = l := by
  intro l
  induction l with
  | nil =>
      intro x y l' h
      unfold blocksForward at h
      simp only [Except.ok.injEq, Prod.mk.injEq] at h
      exact h.2.symm
  | cons b bs ih =>
      intro x y l' h
      unfold blocksForward at h
      simp only [bind, Except.bind] at h
      cases h1 : blockForward false b x with
      | error e => rw [h1] at h; simp at h
      | ok p1 =>
          obtain ⟨y1, b'⟩ := p1
          rw [h1] at h
          simp only [] at h
          cases h2 : blocksForward false bs y1 with
          | error e => rw [h2] at h; simp at h
          | ok p2 =>
              obtain ⟨y2, bs'⟩ := p2
              rw [h2] at h
              simp only [Except.ok.injEq, Prod.mk.injEq] at h
              rw [← h.2, blockForward_false_params b x y1 b' h1,
                ih y1 y2 bs' h2]

lemma layerForward_false_params (L : LayerP) (x y : T4) (L' : LayerP)
    (h : layerForward false L x = Except.ok (y, L')) : L' = L := by
  unfold layerForward at h
  simp only [bind, Except.bind] at h
  cases h1 : blocksForward false L.blocks x with
  | error e => rw [h1] at h; simp at h
  | ok p1 =>
      obtain ⟨y1, bs'⟩ := p1
      rw [h1] at h
      simp only [Except.ok.injEq, Prod.mk.injEq] at h
      rw [← h.2]
      have := blocksForward_false_params L.blocks x y1 bs' h1
      rw [this]

lemma layersForward_false_params :
    ∀ (Ls : List LayerP) (x y : T4) (Ls' : List LayerP),
      layersForward false Ls x = Except.ok (y, Ls') → Ls' = Ls := by
  intro Ls
  induction Ls with
  | nil =>
      intro x y Ls' h
      unfold layersForward at h
      simp only [Except.ok.injEq, Prod.mk.injEq] at h
      exact h.2.symm
  | cons L Ls ih =>
      intro x y Ls' h
      unfold layersForward at h
      simp only [bind, Except.bind] at h
      cases h1 : layerForward false L x with
      | error e => rw [h1] at h; simp at h
      | ok p1 =>
          obtain ⟨y1, L'⟩ := p1
          rw [h1] at h
          simp only [] at h
          cases h2 : layersForward false Ls y1 with
          | error e => rw [h2] at h; simp at h
          | ok p2 =>
              obtain ⟨y2, Ls2⟩ := p2
              rw [h2] at h
              simp only [Except.ok.injEq, Prod.mk.injEq] at h
              rw [← h.2, layerForward_false_params L x y1 L' h1, ih y1 y2 Ls2 h2]

lemma encoderForward_false_params (e : EncoderP) (x y : T4) (e' : EncoderP)
    (h : encoderForward false e x = Except.ok (y, e')) : e' = e := by
  unfold encoderForward at h
  simp only [bind, Except.bind] at h
  cases h1 : conv2dApply e.gate_conv x with
  | error er => rw [h1] at h; simp at h
  | ok y1 =>
      rw [h1] at h
      simp only [] at h
      cases h2 : bnApply false e.gate_bn y1 with
      | error er => rw [h2] at h; simp at h
      | ok p2 =>
          obtain ⟨y2, gb'⟩ := p2
          rw [h2] at h
          simp only [] at h
          cases h3 : layersForward false e.blocks (relu4 y2) with
          | error er => rw [h3] at h; simp at h
          | ok p3 =>
              obtain ⟨y3, Ls'⟩ := p3
              rw [h3] at h
              simp only [Except.ok.injEq, Prod.mk.injEq] at h
              rw [← h.2, bnApply_false_params _ _ _ _ h2,
                layersForward_false_params e.blocks (relu4 y2) y3 Ls' h3]

lemma policyForward_false_params (p : PolicyNetP) (x : T4) (z : T2)
    (p' : PolicyNetP) (h : policyForward false p x = Except.ok (z, p')) :
    p' = p := by
  unfold policyForward at h
  simp only [bind, Except.bind] at h
  cases h1 : conv2dApply p.conv x with
  | error er => rw [h1] at h; simp at h
  | ok y1 =>
      rw [h1] at h
      simp only [] at h
      cases h2 : bnApply false p.bn y1 with
      | error er => rw [h2] at h; simp at h
      | ok p2 =>
          obtain ⟨y2, bn'⟩ := p2
          rw [h2] at h
          simp only [] at h
          cases h3 : linearApply p.fc (flattenT4 (relu4 y2)) with
          | error er => rw [h3] at h; simp at h
          | ok z1 =>
              rw [h3] at h
              simp only [Except.ok.injEq, Prod.mk.injEq] at h
              rw [← h.2, bnApply_false_params _ _ _ _ h2]

lemma valueForward_false_params (p : ValueNetP) (x : T4) (z : T2)
    (p' : ValueNetP) (h : valueForward false p x = Except.ok (z, p')) :
    p' = p := by
  unfold valueForward at h
  simp only [bind, Except.bind] at h
  cases h1 : conv2dApply p.conv x with
  | error er => rw [h1] at h; simp at h
  | ok y1 =>
      rw [h1] at h
      simp only [] at h
      cases h2 : bnApply false p.bn y1 with
      | error er => rw [h2] at h; simp at h
      | ok p2 =>
          obtain ⟨y2, bn'⟩ := p2
          rw [h2] at h
          simp only [] at h
          cases h3 : linearApply p.fc1 (flattenT4 (relu4 y2)) with
          | error er => rw [h3] at h; simp at h
          | ok z1 =>
              rw [h3] at h
              simp only [] at h
              cases h4 : linearApply p.fc2 (relu2 z1) with
              | error er => rw [h4] at h; simp at h
              | ok v =>
                  rw [h4] at h
                  simp only [Except.ok.injEq, Prod.mk.injEq] at h
                  rw [← h.2, bnApply_false_params _ _ _ _ h2]

lemma dualForward_false_params (dt : DType) (m : DualResP) (x : T4)
    (r : T2 × T2) (m' : DualResP)
    (h : dualForward false dt m x = Except.ok (r, m')) : m' = m := by
  unfold dualForward at h
  by_cases hdt : dt = DType.f32
  · rw [if_pos hdt] at h
    simp only [bind, Except.bind] at h
    cases h1 : encoderForward false m.encoder x with
    | error er => rw [h1] at h; simp at h
    | ok p1 =>
        obtain ⟨f, enc'⟩ := p1
        rw [h1] at h
        simp only [] at h
        cases h2 : policyForward false m.policy f with
        | error er => rw [h2] at h; simp at h
        | ok p2 =>
            obtain ⟨pol, pol'⟩ := p2
            rw [h2] at h
            simp only [] at h
            cases h3 : valueForward false m.value f with
            | error er => rw [h3] at h; simp at h
            | ok p3 =>
                obtain ⟨v, val'⟩ := p3
                rw [h3] at h
                simp only [Except.ok.injEq, Prod.mk.injEq] at h
                rw [← h.2, encoderForward_false_params _ _ _ _ h1,
                  policyForward_false_params _ _ _ _ h2,
                  valueForward_false_params _ _ _ _ h3]
  · rw [if_neg hdt] at h
    simp at h

/-- `predict` never changes the stored parameters: in evaluation mode no
batch-norm statistic is updated, and error paths restore nothing. -/
lemma predict_model (s : RunState) (x : NpArray) :
    (predict s x).2.model = s.model := by
  unfold predict
  cases hv : view4 (predictConvert s.model x) 1 10 11 11 with
  | error e => rfl
  | ok x4 =>
      unfold withNoGrad
      dsimp only
      cases hd : dualForward false (predictConvert s.model x).dtype s.model x4 with
      | error e => rfl
      | ok r =>
          obtain ⟨⟨pol, v⟩, m'⟩ := r
          exact dualForward_false_params _ _ _ _ _ hd

/-- The returned value of `predict` depends only on the stored model, not
on the incoming mode or autograd flags. -/
lemma predict_fst (s t : RunState) (x : NpArray) (hm : s.model = t.model) :
    (predict s x).1 = (predict t x).1 := by
  unfold predict
  rw [hm]
  cases hv : view4 (predictConvert t.model x) 1 10 11 11 with
  | error e => rfl
  | ok x4 =>
      unfold withNoGrad
      dsimp only

/-- Claim C8: for every fixed parameter state and input array, two
consecutive `predict` calls with the same input return identical outputs:
apart from the mode flag, no state mutated by the first call affects the
second call's numeric result. -/
theorem claim_C8 (s : RunState) (x : NpArray) :
    (predict ((predict s x).2) x).1 = (predict s x).1 :=
  predict_fst ((predict s x).2) s x (predict_model s x)

/-! ### Shape behaviour of residual blocks (claims C5, C6, C9) -/

lemma convOutDim_k3 (H d : ℕ) : convOutDim H 3 d 1 = (H - 1) / d + 1 := by
  have h : H + 2 * 1 - 3 = H - 1 := by omega
  unfold convOutDim
  rw [h]

lemma convOutDim_k1 (H d : ℕ) : convOutDim H 1 d 0 = (H - 1) / d + 1 := by
  have h : H + 2 * 0 - 1 = H - 1 := by omega
  unfold convOutDim
  rw [h]

lemma convOutDim_k3_s1 (H : ℕ) (hH : 1 ≤ H) : convOutDim H 3 1 1 = H := by
  unfold convOutDim
  omega

lemma three_div_two : (3 : ℕ) / 2 = 1 := rfl

/-- A constructed basic block maps a channel-matching input of positive
spatial size to a `(n, out*expansion, (h-1)/d+1, (w-1)/d+1)` output,
succeeding for every mode; the identity-shortcut configuration is only
required to be compatible with `downsampling = 1`, which is the only way
the stage constructor ever builds it. -/
lemma blockForward_spec (tr : Bool) (i o e d : ℕ) (bw : BlockW) (x : T4)
    (hc : x.c = i) (hh : 1 ≤ x.h) (hw : 1 ≤ x.w) (hd : 1 ≤ d)
    (hcompat : i = o * e → d = 1) :
    ∃ y blk', blockForward tr (mkBasicBlock i o e d bw) x =
        Except.ok (y, blk') ∧
      y.n = x.n ∧ y.c = o * e ∧ y.h = (x.h - 1) / d + 1 ∧
      y.w = (x.w - 1) / d + 1 := by
  -- main-branch first convolution
  obtain ⟨y1, hy1, hy1n, hy1c, hy1h, hy1w⟩ :=
    conv2dApply_ok (mkBasicBlock i o e d bw).conv1 x
      (by simp only [mkBasicBlock, conv3x3, mkConv2dAuto]; exact hc)
      (by simp only [mkBasicBlock, conv3x3, mkConv2dAuto, three_div_two]; omega)
      (by simp only [mkBasicBlock, conv3x3, mkConv2dAuto, three_div_two]; omega)
  simp only [mkBasicBlock, conv3x3, mkConv2dAuto, three_div_two] at hy1c hy1h hy1w
  rw [convOutDim_k3] at hy1h hy1w
  -- main-branch first batch-norm
  obtain ⟨y2, q2, hy2, hy2n, hy2c, hy2h, hy2w, _⟩ :=
    bnApply_ok tr (mkBasicBlock i o e d bw).bn1 y1
      (by simp only [mkBasicBlock, bnDefault]; exact hy1c)
  have hy2h' : y2.h = (x.h - 1) / d + 1 := by rw [hy2h, hy1h]
  have hy2w' : y2.w = (x.w - 1) / d + 1 := by rw [hy2w, hy1w]
  -- main-branch second convolution
  obtain ⟨y3, hy3, hy3n, hy3c, hy3h, hy3w⟩ :=
    conv2dApply_ok (mkBasicBlock i o e d bw).conv2 (relu4 y2)
      (by simp only [mkBasicBlock, conv3x3, mkConv2dAuto, relu4_c]
          rw [hy2c, hy1c])
      (by simp only [mkBasicBlock, conv3x3, mkConv2dAuto, relu4_h, three_div_two]
          rw [hy2h']
          generalize (x.h - 1) / d = q
          omega)
      (by simp only [mkBasicBlock, conv3x3, mkConv2dAuto, relu4_w, three_div_two]
          rw [hy2w']
          generalize (x.w - 1) / d = q
          omega)
  simp only [mkBasicBlock, conv3x3, mkConv2dAuto, relu4_h, relu4_w,
    three_div_two] at hy3c hy3h hy3w
  rw [hy2h', convOutDim_k3_s1 _ (Nat.le_add_left 1 _)] at hy3h
  rw [hy2w', convOutDim_k3_s1 _ (Nat.le_add_left 1 _)] at hy3w
  -- main-branch second batch-norm
  obtain ⟨y4, q4, hy4, hy4n, hy4c, hy4h, hy4w, _⟩ :=
    bnApply_ok tr (mkBasicBlock i o e d bw).bn2 y3
      (by simp only [mkBasicBlock, bnDefault]; exact hy3c)
  by_cases hie : i = o * e
  · -- identity residual; compatible only with stride 1
    have hd1 : d = 1 := hcompat hie
    have hnsac : ¬ shouldApplyShortcut (mkBasicBlock i o e d bw) := by
      simp only [shouldApplyShortcut, mkBasicBlock, ne_eq, not_not]
      exact hie
    unfold blockForward
    simp only [bind, Except.bind]
    rw [if_neg hnsac]
    rw [hy1]
    simp only []
    rw [hy2]
    simp only []
    rw [hy3]
    simp only []
    rw [hy4]
    simp only []
    rw [if_pos (show y4.n = x.n ∧ y4.c = x.c ∧ y4.h = x.h ∧ y4.w = x.w by
      refine ⟨by rw [hy4n, hy3n, relu4_n, hy2n, hy1n], ?_, ?_, ?_⟩
      · rw [hy4c, hy3c, hc, hie]
      · rw [hy4h, hy3h, hd1]
        omega
      · rw [hy4w, hy3w, hd1]
        omega)]
    refine ⟨_, _, rfl, ?_, ?_, ?_, ?_⟩
    · rw [hy4n, hy3n, relu4_n, hy2n, hy1n]
    · rw [hy4c, hy3c]
    · rw [hy4h, hy3h]
    · rw [hy4w, hy3w]
  · -- projection shortcut
    have hsac : shouldApplyShortcut (mkBasicBlock i o e d bw) := by
      simp only [shouldApplyShortcut, mkBasicBlock, ne_eq]
      exact hie
    have hshc : (mkBasicBlock i o e d bw).shortcut =
        some ({ cin := i, cout := o * e, kh := 1, kw := 1, stride := d,
                pad_h := 0, pad_w := 0, weight := bw.sc.weight,
                bias := bw.sc.bias, has_bias := false },
              bnDefault (o * e) bw.sb) := by
      simp only [mkBasicBlock, mkShortcut]
      rw [if_pos hie]
    obtain ⟨r, hr, hrn, hrc, hrh, hrw⟩ :=
      conv2dApply_ok
        ({ cin := i, cout := o * e, kh := 1, kw := 1, stride := d,
           pad_h := 0, pad_w := 0, weight := bw.sc.weight,
           bias := bw.sc.bias, has_bias := false } : Conv2dP) x
        hc (by simp; omega) (by simp; omega)
    simp only [] at hrc hrh hrw
    rw [convOutDim_k1] at hrh hrw
    obtain ⟨r2, qb, hr2, hr2n, hr2c, hr2h, hr2w, _⟩ :=
      bnApply_ok tr (bnDefault (o * e) bw.sb) r
        (by simp only [bnDefault]; exact hrc)
    unfold blockForward
    simp only [bind, Except.bind]
    rw [if_pos hsac, hshc]
    simp only []
    rw [hr]
    simp only []
    rw [hr2]
    simp only []
    rw [hy1]
    simp only []
    rw [hy2]
    simp only []
    rw [hy3]
    simp only []
    rw [hy4]
    simp only []
    rw [if_pos (show y4.n = r2.n ∧ y4.c = r2.c ∧ y4.h = r2.h ∧ y4.w = r2.w by
      refine ⟨?_, ?_, ?_, ?_⟩
      · rw [hy4n, hy3n, relu4_n, hy2n, hy1n, hr2n, hrn]
      · rw [hy4c, hy3c, hr2c, hrc]
      · rw [hy4h, hy3h, hr2h, hrh]
      · rw [hy4w, hy3w, hr2w, hrw])]
    refine ⟨_, _, rfl, ?_, ?_, ?_, ?_⟩
    · rw [hy4n, hy3n, relu4_n, hy2n, hy1n]
    · rw [hy4c, hy3c]
    · rw [hy4h, hy3h]
    · rw [hy4w, hy3w]

/-- A list of constant-width stride-1 basic blocks preserves the input
shape and always succeeds on a channel-matching input. -/
lemma blocksForward_tailspec (tr : Bool) (o : ℕ) :
    ∀ (l : List BasicBlockP),
      (∀ blk ∈ l, ∃ w, blk = mkBasicBlock (o * basicExpansion) o basicExpansion 1 w) →
      ∀ (x : T4), x.c = o * basicExpansion → 1 ≤ x.h → 1 ≤ x.w →
      ∃ y l', blocksForward tr l x = Except.ok (y, l') ∧
        y.n = x.n ∧ y.c = o * basicExpansion ∧ y.h = x.h ∧ y.w = x.w := by
  intro l
  induction l with
  | nil =>
      intro _ x hc hh hw
      exact ⟨x, [], rfl, rfl, hc, rfl, rfl⟩
  | cons b bs ih =>
      intro hl x hc hh hw
      obtain ⟨w, rfl⟩ := hl b (by simp)
      obtain ⟨y1, blk', h1, h1n, h1c, h1h, h1w⟩ :=
        blockForward_spec tr (o * basicExpansion) o basicExpansion 1 w x hc hh hw
          (le_refl 1) (fun _ => rfl)
      have h1h' : y1.h = x.h := by rw [h1h]; omega
      have h1w' : y1.w = x.w := by rw [h1w]; omega
      obtain ⟨y2, l', h2, h2n, h2c, h2h, h2w⟩ :=
        ih (fun blk hblk => hl blk (by simp [hblk])) y1 h1c
          (by rw [h1h']; exact hh) (by rw [h1w']; exact hw)
      refine ⟨y2, blk' :: l', ?_, ?_, h2c, ?_, ?_⟩
      · simp only [blocksForward, bind, Except.bind]
        rw [h1]
        simp only []
        rw [h2]
      · rw [h2n, h1n]
      · rw [h2h, h1h']
      · rw [h2w, h1w']

/-- `ResNetLayer.forward` on a channel-matching input of positive
spatial size: always succeeds, emitting `out_channels * expansion`
channels, and halves (rounding up) the spatial size exactly when
`in_channels ≠ out_channels`. -/
lemma layerForward_spec (tr : Bool) (i o n : ℕ) (W : ℕ → BlockW) (x : T4)
    (hc : x.c = i) (hh : 1 ≤ x.h) (hw : 1 ≤ x.w) :
    ∃ y L', layerForward tr (mkResNetLayer i o n W) x = Except.ok (y, L') ∧
      y.n = x.n ∧ y.c = o * basicExpansion ∧
      y.h = (x.h - 1) / (if i ≠ o then 2 else 1) + 1 ∧
      y.w = (x.w - 1) / (if i ≠ o then 2 else 1) + 1 := by
  have hbl : (mkResNetLayer i o n W).blocks =
      mkBasicBlock i o basicExpansion (if i ≠ o then 2 else 1) (W 0) ::
      (List.range (n - 1)).map (fun idx =>
        mkBasicBlock (o * basicExpansion) o basicExpansion 1 (W (idx + 1))) := rfl
  obtain ⟨y1, blk', h1, h1n, h1c, h1h, h1w⟩ :=
    blockForward_spec tr i o basicExpansion (if i ≠ o then 2 else 1) (W 0) x
      hc hh hw (by split <;> omega)
      (by intro hie
          have hio : i = o := by simpa [basicExpansion] using hie
          rw [if_neg (by omega)])
  obtain ⟨y2, l', h2, h2n, h2c, h2h, h2w⟩ :=
    blocksForward_tailspec tr o _
      (by intro blk hblk
          obtain ⟨idx, _, rfl⟩ := List.mem_map.mp hblk
          exact ⟨W (idx + 1), rfl⟩)
      y1 h1c (by rw [h1h]; exact Nat.le_add_left 1 _)
      (by rw [h1w]; exact Nat.le_add_left 1 _)
  refine ⟨y2, { blocks := blk' :: l' }, ?_, ?_, h2c, ?_, ?_⟩
  · unfold layerForward
    simp only [bind, Except.bind, hbl, blocksForward]
    rw [h1]
    simp only []
    rw [h2]
  · rw [h2n, h1n]
  · rw [h2h, h1h]
  · rw [h2w, h1w]

/-! ### Claim C5 -/

/-- Claim C5: in every residual block configuration the shortcut path is
the identity exactly when `in_channels = out_channels * expansion` (the
stored shortcut is `None` and `forward` adds the raw input); otherwise
the shortcut is a learned 1x1 convolution `in_channels →
out_channels*expansion` with `stride = downsampling` and no bias followed
by batch normalization, and the summed shortcut and main-branch outputs
have identical shapes, so `forward` succeeds (in the identity case under
the stage invariant `downsampling = 1`, the only way such blocks are
built). -/
theorem claim_C5 (i o e d : ℕ) (bw : BlockW) (hd : 1 ≤ d) :
    ((mkBasicBlock i o e d bw).shortcut = none ↔ i = o * e) ∧
    (¬ shouldApplyShortcut (mkBasicBlock i o e d bw) ↔ i = o * e) ∧
    (i ≠ o * e → (mkBasicBlock i o e d bw).shortcut =
      some ({ cin := i, cout := o * e, kh := 1, kw := 1, stride := d,
              pad_h := 0, pad_w := 0, weight := bw.sc.weight,
              bias := bw.sc.bias, has_bias := false },
            bnDefault (o * e) bw.sb)) ∧
    (∀ H, 1 ≤ H → convOutDim (convOutDim H 3 d 1) 3 1 1 = convOutDim H 1 d 0) ∧
    (∀ (tr : Bool) (x : T4), x.c = i → 1 ≤ x.h → 1 ≤ x.w → (i = o * e → d = 1) →
      ∃ y blk', blockForward tr (mkBasicBlock i o e d bw) x =
        Except.ok (y, blk')) := by
  refine ⟨?_, ?_, ?_, ?_, ?_⟩
  · constructor
    · intro hnone
      by_contra hne
      have : (mkBasicBlock i o e d bw).shortcut ≠ none := by
        simp only [mkBasicBlock, mkShortcut]
        rw [if_pos hne]
        simp
      exact this hnone
    · intro hie
      simp only [mkBasicBlock, mkShortcut]
      rw [if_neg (by omega)]
  · simp only [shouldApplyShortcut, mkBasicBlock, ne_eq, not_not]
  · intro hne
    simp only [mkBasicBlock, mkShortcut]
    rw [if_pos hne]
  · intro H hH
    rw [convOutDim_k3 H d, convOutDim_k3_s1 _ (Nat.le_add_left 1 _),
      convOutDim_k1]
  · intro tr x hxc hxh hxw hcompat
    obtain ⟨y, blk', hy, _, _, _, _⟩ :=
      blockForward_spec tr i o e d bw x hxc hxh hxw hd hcompat
    exact ⟨y, blk', hy⟩

/-- Claim C5 witness. -/
theorem claim_C5_witness :
    ((mkBasicBlock 2 1 1 2 zeroBlockW).shortcut = none ↔ 2 = 1 * 1) ∧
    (¬ shouldApplyShortcut (mkBasicBlock 2 1 1 2 zeroBlockW) ↔ 2 = 1 * 1) ∧
    (2 ≠ 1 * 1 → (mkBasicBlock 2 1 1 2 zeroBlockW).shortcut =
      some ({ cin := 2, cout := 1 * 1, kh := 1, kw := 1, stride := 2,
              pad_h := 0, pad_w := 0, weight := zeroBlockW.sc.weight,
              bias := zeroBlockW.sc.bias, has_bias := false },
            bnDefault (1 * 1) zeroBlockW.sb)) ∧
    (∀ H, 1 ≤ H → convOutDim (convOutDim H 3 2 1) 3 1 1 = convOutDim H 1 2 0) ∧
    (∀ (tr : Bool) (x : T4), x.c = 2 → 1 ≤ x.h → 1 ≤ x.w → (2 = 1 * 1 → 2 = 1) →
      ∃ y blk', blockForward tr (mkBasicBlock 2 1 1 2 zeroBlockW) x =
        Except.ok (y, blk')) :=
  claim_C5 2 1 1 2 zeroBlockW (by decide)

/-! ### Claim C6 -/

/-- Claim C6: a `ResNetLayer` built with `n ≥ 1` blocks sets its
downsampling to 2 exactly when `in_channels ≠ out_channels`; only the
first block receives that downsampling and the channel transition, while
blocks 2..n run at stride 1 and constant width
`out_channels*expansion → out_channels`; consequently on a
channel-matching input the output spatial size is `⌈input/2⌉`
(computed as `(input+1)/2`) when `in_channels ≠ out_channels` and equals
the input spatial size otherwise. -/
theorem claim_C6 (i o n : ℕ) (W : ℕ → BlockW) (hn : 1 ≤ n) :
    (mkResNetLayer i o n W).blocks.length = n ∧
    (mkResNetLayer i o n W).blocks.head? =
      some (mkBasicBlock i o basicExpansion (if i ≠ o then 2 else 1) (W 0)) ∧
    (∀ blk ∈ (mkResNetLayer i o n W).blocks.tail,
      blk.downsampling = 1 ∧ blk.in_channels = o * basicExpansion ∧
        blk.out_channels = o) ∧
    (∀ (tr : Bool) (x : T4), x.c = i → 1 ≤ x.h → 1 ≤ x.w →
      ∃ y L', layerForward tr (mkResNetLayer i o n W) x = Except.ok (y, L') ∧
        (i ≠ o → y.h = (x.h + 1) / 2 ∧ y.w = (x.w + 1) / 2) ∧
        (i = o → y.h = x.h ∧ y.w = x.w)) := by
  refine ⟨?_, rfl, ?_, ?_⟩
  · simp only [mkResNetLayer, List.length_cons, List.length_map,
      List.length_range]
    omega
  · intro blk hblk
    simp only [mkResNetLayer, List.tail_cons] at hblk
    obtain ⟨idx, _, rfl⟩ := List.mem_map.mp hblk
    exact ⟨rfl, rfl, rfl⟩
  · intro tr x hc hh hw
    obtain ⟨y, L', hy, hn', hcY, hhY, hwY⟩ :=
      layerForward_spec tr i o n W x hc hh hw
    refine ⟨y, L', hy, ?_, ?_⟩
    · intro hne
      rw [if_pos hne] at hhY hwY
      constructor
      · rw [hhY]; omega
      · rw [hwY]; omega
    · intro heq
      rw [if_neg (by omega)] at hhY hwY
      constructor
      · rw [hhY]; omega
      · rw [hwY]; omega

/-- Claim C6 witness. -/
theorem claim_C6_witness :
    (mkResNetLayer 1 1 2 (fun _ => zeroBlockW)).blocks.length = 2 ∧
    (mkResNetLayer 1 1 2 (fun _ => zeroBlockW)).blocks.head? =
      some (mkBasicBlock 1 1 basicExpansion (if (1 : ℕ) ≠ 1 then 2 else 1)
        zeroBlockW) ∧
    (∀ blk ∈ (mkResNetLayer 1 1 2 (fun _ => zeroBlockW)).blocks.tail,
      blk.downsampling = 1 ∧ blk.in_channels = 1 * basicExpansion ∧
        blk.out_channels = 1) ∧
    (∀ (tr : Bool) (x : T4), x.c = 1 → 1 ≤ x.h → 1 ≤ x.w →
      ∃ y L', layerForward tr (mkResNetLayer 1 1 2 (fun _ => zeroBlockW)) x =
          Except.ok (y, L') ∧
        ((1 : ℕ) ≠ 1 → y.h = (x.h + 1) / 2 ∧ y.w = (x.w + 1) / 2) ∧
        ((1 : ℕ) = 1 → y.h = x.h ∧ y.w = x.w)) :=
  claim_C6 1 1 2 (fun _ => zeroBlockW) (by decide)

/-! ### Claim C9: predict with tpu=True and dev=None -/

/-- `ResNetEncoder.forward` on a channel-matching input of positive
spatial size: succeeds and preserves the spatial size (the gate is a
stride-1 3x3 pad-1 convolution and the single stage has
`in_channels = out_channels`). -/
lemma encoderForward_spec (tr : Bool) (in_ch b0 d0 : ℕ) (bs ds : List ℕ)
    (w : EncW) (e : EncoderP)
    (he : mkResNetEncoder in_ch (b0 :: bs) (d0 :: ds) w = some e)
    (x : T4) (hc : x.c = in_ch) (hh : 1 ≤ x.h) (hw : 1 ≤ x.w) :
    ∃ y e', encoderForward tr e x = Except.ok (y, e') ∧
      y.n = x.n ∧ y.c = b0 * basicExpansion ∧ y.h = x.h ∧ y.w = x.w := by
  unfold mkResNetEncoder at he
  simp only [Option.some.injEq] at he
  subst he
  obtain ⟨y1, hy1, hy1n, hy1c, hy1h, hy1w⟩ :=
    conv2dApply_ok ({ cin := in_ch, cout := b0, kh := 3, kw := 3, stride := 1,
                      pad_h := 1, pad_w := 1, weight := w.gc.weight,
                      bias := w.gc.bias, has_bias := false } : Conv2dP) x
      hc (by simp; omega) (by simp; omega)
  simp only [] at hy1c hy1h hy1w
  rw [convOutDim_k3_s1 _ hh] at hy1h
  rw [convOutDim_k3_s1 _ hw] at hy1w
  obtain ⟨y2, q2, hy2, hy2n, hy2c, hy2h, hy2w, _⟩ :=
    bnApply_ok tr (bnDefault b0 w.gb) y1 (by simp only [bnDefault]; exact hy1c)
  obtain ⟨y3, L', hy3, hy3n, hy3c, hy3h, hy3w⟩ :=
    layerForward_spec tr b0 b0 d0 w.layerW (relu4 y2)
      (by rw [relu4_c, hy2c, hy1c])
      (by rw [relu4_h, hy2h, hy1h]; exact hh)
      (by rw [relu4_w, hy2w, hy1w]; exact hw)
  rw [if_neg (by omega)] at hy3h hy3w
  refine ⟨y3,
    { gate_conv := { cin := in_ch, cout := b0, kh := 3, kw := 3, stride := 1,
                     pad_h := 1, pad_w := 1, weight := w.gc.weight,
                     bias := w.gc.bias, has_bias := false },
      gate_bn := q2, blocks := [L'] }, ?_, ?_, hy3c, ?_, ?_⟩
  · unfold encoderForward
    simp only [bind, Except.bind]
    rw [hy1]
    simp only []
    rw [hy2]
    simp only []
    simp only [layersForward, bind, Except.bind]
    rw [hy3]
  · rw [hy3n, relu4_n, hy2n, hy1n]
  · rw [hy3h, relu4_h, hy2h, hy1h]
    omega
  · rw [hy3w, relu4_w, hy2w, hy1w]
    omega

/-- `DualRes.forward` in float32 on a channel-matching `11x11` input
succeeds for every model built by the constructor. -/
lemma dualForward_spec (tr : Bool) (in_ch nc d0 : ℕ) (bl ds : List ℕ)
    (cuda tpu : Bool) (dev : Option Device) (w : DualW) (m : DualResP)
    (hm : mkDualRes in_ch nc cuda tpu dev bl (d0 :: ds) w = some m)
    (hnc : 1 ≤ nc) (x : T4) (hc : x.c = in_ch) (hh : x.h = 11)
    (hw : x.w = 11) :
    ∃ r m', dualForward tr DType.f32 m x = Except.ok (r, m') := by
  obtain ⟨e, he⟩ : ∃ e, mkResNetEncoder in_ch [128] (d0 :: ds) w.enc =
      some e := by
    unfold mkResNetEncoder
    exact ⟨_, rfl⟩
  unfold mkDualRes at hm
  rw [he] at hm
  simp only [Option.some.injEq] at hm
  subst hm
  obtain ⟨hlast, _⟩ := encLastExpanded_mk in_ch 128 d0 [] ds w.enc e he
  obtain ⟨f, e', hf, hfn, hfc, hfh, hfw⟩ :=
    encoderForward_spec tr in_ch 128 d0 [] ds w.enc e he x hc
      (by omega) (by omega)
  obtain ⟨pr, pol', hpol, _, _, _⟩ :=
    policyForward_spec (encLastExpanded e) nc w.pc w.pb w.pf tr f
      (by rw [hfc, hlast]) (by rw [hfh, hh]) (by rw [hfw, hw]) hnc
  obtain ⟨v, val', hval, _, _, _⟩ :=
    valueForward_spec (encLastExpanded e) nc w.vc w.vb w.vf1 w.vf2 tr f
      (by rw [hfc, hlast]) (by rw [hfh, hh]) (by rw [hfw, hw])
  refine ⟨(pr, v),
    { use_cuda := cuda, use_tpu := tpu, dev := dev, in_channels := in_ch,
      n_classes := nc, encoder := e', policy := pol', value := val' }, ?_⟩
  unfold dualForward
  rw [if_pos rfl]
  simp only [bind, Except.bind]
  rw [hf]
  simp only []
  rw [hpol]
  simp only []
  rw [hval]

/-- With `use_tpu = true`, `dev = None` and `use_cuda = false`, the
conversion prologue is `from_numpy` followed by the no-op `.to(None)`:
the tensor keeps its dtype and host placement. -/
lemma predictConvert_tpu_none (m : DualResP) (x : NpArray)
    (htpu : m.use_tpu = true) (hcuda : m.use_cuda = false)
    (hdev : m.dev = none) : predictConvert m x = torchFromNumpy x := by
  unfold predictConvert
  rw [htpu, hcuda, hdev]
  simp [tensorTo]

/-- `predict` on a model built with `tpu = true` and `dev = none`
succeeds whenever the input is a float32 array of 1210 elements: the
`dev=None` configuration is silently ignored rather than raising. -/
lemma predict_tpu_none_spec (nc d0 : ℕ) (bl ds : List ℕ) (w : DualW)
    (m : DualResP)
    (hm : mkDualRes 10 nc false true none bl (d0 :: ds) w = some m)
    (hnc : 1 ≤ nc) (tr g : Bool) (x : NpArray) (hdt : x.dtype = DType.f32)
    (hnl : numel x.shape = 1210) :
    exOk (predict { model := m, training := tr, grad_enabled := g } x).1 =
      true := by
  have hflags : m.use_tpu = true ∧ m.use_cuda = false ∧ m.dev = none := by
    obtain ⟨e, he⟩ : ∃ e, mkResNetEncoder 10 [128] (d0 :: ds) w.enc =
        some e := by
      unfold mkResNetEncoder
      exact ⟨_, rfl⟩
    unfold mkDualRes at hm
    rw [he] at hm
    simp only [Option.some.injEq] at hm
    rw [← hm]
    exact ⟨rfl, rfl, rfl⟩
  have hpc : predictConvert m x = torchFromNumpy x :=
    predictConvert_tpu_none m x hflags.1 hflags.2.1 hflags.2.2
  have hview : view4 (predictConvert m x) 1 10 11 11 =
      Except.ok { n := 1, c := 10, h := 11, w := 11,
                  data := fun b ci i j =>
                    x.data (((b * 10 + ci) * 11 + i) * 11 + j) } := by
    rw [hpc]
    unfold view4
    rw [if_pos (by simpa [torchFromNumpy, numel] using hnl)]
    rfl
  have hdtype : (predictConvert m x).dtype = DType.f32 := by
    rw [hpc]
    exact hdt
  obtain ⟨r, m', hdual⟩ :=
    dualForward_spec false 10 nc d0 bl ds false true none w m hm hnc
      ({ n := 1, c := 10, h := 11, w := 11,
         data := fun b ci i j =>
           x.data (((b * 10 + ci) * 11 + i) * 11 + j) } : T4)
      rfl rfl rfl
  unfold predict
  dsimp only
  rw [hview]
  unfold withNoGrad
  dsimp only
  rw [hdtype, hdual]
  obtain ⟨⟨pr, v⟩, _⟩ := (r, m')
  rfl

def junkConv : Conv2dP :=
  ⟨0, 0, 0, 0, 0, 0, 0, fun _ _ _ _ => 0, fun _ => 0, false⟩

noncomputable def junkBN : BatchNorm2dP := bnDefault 0 zeroBNW

def junkLin : LinearP := ⟨0, 0, fun _ _ => 0, fun _ => 0⟩

/-- A placeholder model used only as the (never taken) `getD` default. -/
noncomputable def junkModel : DualResP :=
  { use_cuda := false, use_tpu := false, dev := none, in_channels := 0,
    n_classes := 0,
    encoder := { gate_conv := junkConv, gate_bn := junkBN, blocks := [] },
    policy := { inplanes := 0, outplanes := 0, conv := junkConv,
                bn := junkBN, fc := junkLin },
    value := { inplanes := 0, outplanes := 0, conv := junkConv,
               bn := junkBN, fc1 := junkLin, fc2 := junkLin } }

/-- A concrete `DualRes(10, 1, cuda=False, tpu=True, dev=None,
blocks_size=[1], deepths=[1])` with all-zero parameters (its encoder
runs at the default width 128, the `blocks_size` argument being
swallowed). -/
noncomputable def c9Model : DualResP :=
  (mkDualRes 10 1 false true none [1] [1] zeroDualW).getD junkModel

lemma c9Model_eq :
    mkDualRes 10 1 false true none [1] [1] zeroDualW = some c9Model := rfl

/-- An all-zero float32 `(10, 11, 11)` input array. -/
def c9Input : NpArray := ⟨[10, 11, 11], DType.f32, fun _ => 0⟩

/-- A fresh runtime state: training mode, gradients enabled. -/
noncomputable def c9State : RunState := ⟨c9Model, true, true⟩

/-- Claim C9 counterexample: a `DualRes` built with `tpu=True` and no
`dev` (dev=None) constructs successfully, and its first `predict` call on
a float32 input *succeeds* — `Tensor.to(None)` is a device no-op, so no
missing-argument/None-dereference error is raised at first use. -/
theorem claim_C9_counterexample :
    mkDualRes 10 1 false true none [1] [1] zeroDualW = some c9Model ∧
    exOk (predict c9State c9Input).1 = true :=
  ⟨c9Model_eq,
   predict_tpu_none_spec 1 1 [1] [] zeroDualW c9Model c9Model_eq
     (by decide) true true c9Input rfl (by decide)⟩

/-- Claim C9 (amended): constructing a `DualNetwork` with `tpu=True` and
`dev=None` is not detected at construction time (the configuration is
stored as-is), but the first `predict` does not raise a
missing-argument/None-dereference error either: `tensor.to(None)` leaves
the tensor unchanged, so the call runs on the host parameters and
succeeds for every float32 input of 1210 elements (a non-float32 input
instead fails with a dtype error at the first convolution, not a
None-dereference). -/
theorem claim_C9_amended (nc d0 : ℕ) (bl ds : List ℕ) (w : DualW)
    (m : DualResP)
    (hm : mkDualRes 10 nc false true none bl (d0 :: ds) w = some m)
    (hnc : 1 ≤ nc) (tr g : Bool) (x : NpArray) (hdt : x.dtype = DType.f32)
    (hnl : numel x.shape = 1210) :
    m.use_tpu = true ∧ m.dev = none ∧
    exOk (predict { model := m, training := tr, grad_enabled := g } x).1 =
      true := by
  have hflags : m.use_tpu = true ∧ m.use_cuda = false ∧ m.dev = none := by
    obtain ⟨e, he⟩ : ∃ e, mkResNetEncoder 10 [128] (d0 :: ds) w.enc =
        some e := by
      unfold mkResNetEncoder
      exact ⟨_, rfl⟩
    unfold mkDualRes at hm
    rw [he] at hm
    simp only [Option.some.injEq] at hm
    rw [← hm]
    exact ⟨rfl, rfl, rfl⟩
  exact ⟨hflags.1, hflags.2.2,
    predict_tpu_none_spec nc d0 bl ds w m hm hnc tr g x hdt hnl⟩

/-- Claim C9 witness. -/
theorem claim_C9_witness :
    c9Model.use_tpu = true ∧ c9Model.dev = none ∧
    exOk (predict { model := c9Model, training := true, grad_enabled := true }
      c9Input).1 = true :=
  claim_C9_amended 1 1 [1] [] zeroDualW c9Model c9Model_eq (by decide)
    true true c9Input rfl (by decide)

/-- Claim C3 witness. -/
theorem claim_C3_witness :
    (predict c9State c9Input).2.grad_enabled = c9State.grad_enabled ∧
    (predict c9State c9Input).2.training = false :=
  ⟨(claim_C3 c9State c9Input).1,
   (claim_C3 c9State c9Input).2
     (predict_tpu_none_spec 1 1 [1] [] zeroDualW c9Model c9Model_eq
       (by decide) true true c9Input rfl (by decide))⟩

end Models
